import Mathlib

/-!
# BMP grayscale codec: a shallow embedding of `src/grayscale.c`

The three functions of the codec, `readBMP`, `convertToGrayscale` and
`saveGrayscaleBMP`, are embedded as pure Lean functions.

Conventions of the embedding.

* A byte is a `Nat`; a file is the list of its bytes.  A C pointer that may be
  `NULL` is an `Option`.
* A C `int` is an `Int`.  The target is the usual one: `int` has 32 bits and
  `size_t` has 64 bits.  Every result of `int` arithmetic goes through `toInt32`
  (wrap-around modulo 2^32) and every `size_t` result through `toSizeT`, so that
  the definitions can be evaluated on any input.  Signed overflow and accesses
  outside a buffer are undefined in C; the theorems that depend on them not
  happening say so in a hypothesis (`InIntRange`, buffer lengths).
* Memory that C leaves indeterminate (locals that `fread` did not fill, fresh
  `malloc` blocks) is read from an `Uninit` argument, so no result is proved by
  choosing a convenient value for it.
* `float` is IEEE 754 binary32 with round-to-nearest-even, every operation
  rounded on its own (`FLT_EVAL_METHOD` 0, no contraction into fused
  multiply-add).  A finite non-negative `float` is the natural number of units
  of `2^-149` it holds, which is exact for every binary32 value.
-/

namespace Grayscale

/-! ## Machine integers -/

/-- Value of a 32-bit `int` after wrap-around modulo 2^32. -/
def toInt32 (n : Int) : Int := (n + 2147483648) % 4294967296 - 2147483648

/-- Conversion to `uint32_t`. -/
def toUInt32 (n : Int) : Nat := (n % 4294967296).toNat

/-- Conversion to `uint8_t`. -/
def toUInt8 (n : Int) : Nat := (n % 256).toNat

/-- Conversion to the 64-bit `size_t`. -/
def toSizeT (n : Int) : Nat := (n % 18446744073709551616).toNat

/-- Little-endian bytes of a 16-bit field. -/
def le16 (n : Nat) : List Nat := [n % 256, n / 256 % 256]

/-- Little-endian bytes of a 32-bit field. -/
def le32 (n : Nat) : List Nat :=
  [n % 256, n / 256 % 256, n / 65536 % 256, n / 16777216 % 256]

/-- Byte `i` of a buffer (0 past its end, which no theorem relies on). -/
def byteAt (bs : List Nat) (i : Nat) : Nat := bs.getD i 0

/-- Little-endian 16-bit field stored at offset `off`. -/
def rd16 (bs : List Nat) (off : Nat) : Nat :=
  byteAt bs off + 256 * byteAt bs (off + 1)

/-- Little-endian 32-bit field stored at offset `off`. -/
def rd32 (bs : List Nat) (off : Nat) : Nat :=
  byteAt bs off + 256 * byteAt bs (off + 1) + 65536 * byteAt bs (off + 2)
    + 16777216 * byteAt bs (off + 3)

/-! ## Data model (lines 8-46) -/

/-- The struct `Pixel`: three `uint8_t` samples in file order. -/
structure Pixel where
  blue : Nat
  green : Nat
  red : Nat
deriving DecidableEq

/-- The struct `Image`; `none` is a `NULL` buffer pointer. -/
structure Image where
  width : Int
  height : Int
  pixels : Option (List Pixel)
  grayscale : Option (List Nat)
deriving DecidableEq

/-- The packed struct `BMPHeader`. -/
structure BMPHeader where
  signature : Nat
  filesize : Nat
  reserved1 : Nat
  reserved2 : Nat
  dataOffset : Nat
deriving DecidableEq

/-- The packed struct `BMPInfoHeader`. -/
structure BMPInfoHeader where
  headerSize : Nat
  width : Int
  height : Int
  planes : Nat
  bitsPerPixel : Nat
  compression : Nat
  imageSize : Nat
  xPixelsPerM : Int
  yPixelsPerM : Int
  colorsUsed : Nat
  colorsImp : Nat
deriving DecidableEq

/-- Size in bytes of the packed `BMPHeader`: 2 + 4 + 2 + 2 + 4. -/
def sizeofBMPHeader : Nat := 14

/-- Size in bytes of the packed `BMPInfoHeader`: 4+4+4+2+2+4+4+4+4+4+4. -/
def sizeofBMPInfoHeader : Nat := 40

/-- Size in bytes of `Pixel`. -/
def sizeofPixel : Nat := 3

/-- Memory image of a `BMPHeader` (packed, little-endian). -/
def BMPHeader.bytes (h : BMPHeader) : List Nat :=
  le16 h.signature ++ le32 h.filesize ++ le16 h.reserved1 ++ le16 h.reserved2
    ++ le32 h.dataOffset

/-- Memory image of a `BMPInfoHeader` (packed, little-endian). -/
def BMPInfoHeader.bytes (h : BMPInfoHeader) : List Nat :=
  le32 h.headerSize ++ le32 (toUInt32 h.width) ++ le32 (toUInt32 h.height)
    ++ le16 h.planes ++ le16 h.bitsPerPixel ++ le32 h.compression
    ++ le32 h.imageSize ++ le32 (toUInt32 h.xPixelsPerM)
    ++ le32 (toUInt32 h.yPixelsPerM) ++ le32 h.colorsUsed ++ le32 h.colorsImp

/-! ## Indeterminate memory and the input stream -/

/-- Contents of the memory that C leaves indeterminate: `stack i` is byte `i` of
the locals `header` (0-13) and `infoHeader` (14-53) before `fread` fills them,
`heap i` is byte `i` of a block that `malloc` has just returned. -/
structure Uninit where
  stack : Nat → Nat
  heap : Nat → Nat

/-- An open input stream: the bytes of the file and the read position. -/
structure FILE where
  data : List Nat
  pos : Nat

/-- The call `fread(ptr, size, count, file)` at byte level.  `dst` is the
previous content of the `size * count` destination bytes; the bytes available
in the file overwrite its beginning, the rest of it is left as it was, and the
position advances by the number of bytes read. -/
def fread (dst : List Nat) (f : FILE) : List Nat × FILE :=
  let got := (f.data.drop f.pos).take dst.length
  (got ++ dst.drop got.length, ⟨f.data, f.pos + got.length⟩)

/-- The call `fseek(file, offset, SEEK_CUR)`: the position may pass the end of
the file; a position before the start is refused. -/
def fseekCur (f : FILE) (offset : Int) : FILE :=
  if (f.pos : Int) + offset < 0 then f else ⟨f.data, ((f.pos : Int) + offset).toNat⟩

/-- Fields of a `BMPHeader` whose memory image is `bs`. -/
def BMPHeader.parse (bs : List Nat) : BMPHeader where
  signature := rd16 bs 0
  filesize := rd32 bs 2
  reserved1 := rd16 bs 6
  reserved2 := rd16 bs 8
  dataOffset := rd32 bs 10

/-- Fields of a `BMPInfoHeader` whose memory image is `bs`. -/
def BMPInfoHeader.parse (bs : List Nat) : BMPInfoHeader where
  headerSize := rd32 bs 0
  width := toInt32 (rd32 bs 4)
  height := toInt32 (rd32 bs 8)
  planes := rd16 bs 12
  bitsPerPixel := rd16 bs 14
  compression := rd32 bs 16
  imageSize := rd32 bs 20
  xPixelsPerM := toInt32 (rd32 bs 24)
  yPixelsPerM := toInt32 (rd32 bs 28)
  colorsUsed := rd32 bs 32
  colorsImp := rd32 bs 36

/-- A buffer of bytes seen as an array of `Pixel`. -/
def toPixels : List Nat → List Pixel
  | b :: g :: r :: rest => ⟨b, g, r⟩ :: toPixels rest
  | _ => []

/-! ## Decoder: `readBMP` (lines 49-90) -/

/-- Line 78: `(4 - (img->width * sizeof(Pixel)) % 4) % 4`, computed in `size_t`
and stored in an `int`. -/
def readPaddingSize (width : Int) : Int :=
  toInt32 (toSizeT (4 - ((toSizeT ((toSizeT width : Int) * sizeofPixel) % 4 : Nat) : Int)) % 4 : Nat)

/-- Line 74: the argument of `malloc`, `img->width * img->height * sizeof(Pixel)`. -/
def readAllocSize (width height : Int) : Nat :=
  toSizeT ((toSizeT (toInt32 (width * height)) : Int) * sizeofPixel)

/-- Lines 81-86: the row loop; `buf` is the memory of `img->pixels`, `f` the
stream, `y` the loop counter and `n` the number of iterations left. -/
def readRowsLoop (width : Int) (paddingSize : Int) :
    Nat → Int → List Nat → FILE → List Nat × FILE
  | 0, _, buf, f => (buf, f)
  | n + 1, y, buf, f =>
    let off := sizeofPixel * (toInt32 (y * width)).toNat
    let len := toSizeT ((sizeofPixel : Int) * (toSizeT width : Int))
    let r := fread ((buf.drop off).take len) f
    readRowsLoop width paddingSize n (toInt32 (y + 1))
      (buf.take off ++ r.1 ++ buf.drop (off + len)) (fseekCur r.2 paddingSize)

/-- The function `readBMP`.  `file` is the content of the named file, `none`
when `fopen` fails.  The result `none` is the `NULL` return.  `malloc` is taken
to succeed and to return a non-null block also for size 0. -/
def readBMP (u : Uninit) (file : Option (List Nat)) : Option Image :=
  match file with
  | none => none
  | some data =>
    let f : FILE := ⟨data, 0⟩
    let r := fread ((List.range sizeofBMPHeader).map u.stack) f
    let header := BMPHeader.parse r.1
    let r := fread ((List.range sizeofBMPInfoHeader).map fun i => u.stack (sizeofBMPHeader + i)) r.2
    let infoHeader := BMPInfoHeader.parse r.1
    if header.signature ≠ 0x4D42 then none
    else
      let width := infoHeader.width
      let height := infoHeader.height
      let buf := (List.range (readAllocSize width height)).map u.heap
      let paddingSize := readPaddingSize width
      let buf := (readRowsLoop width paddingSize height.toNat 0 buf r.2).1
      some ⟨width, height, some (toPixels buf), none⟩

/-! ## Binary32 arithmetic -/

/-- One unit is `2^-149`, the smallest positive binary32 value. -/
def f32Unit : Nat := 2 ^ 149

/-- Number of halvings that bring `q` below `2^24`: the exponent of the unit
in the last place of a value whose integer part, in units, is `q`. -/
def f32Exp : Nat → Nat → Nat
  | 0, _ => 0
  | fuel + 1, q => if q < 16777216 then 0 else f32Exp fuel (q / 2) + 1

/-- Round-to-nearest-even of the exact value `num / den` (in units) to a
binary32 value (in units): the nearest multiple of `2^s` that has a 24-bit
significand, ties going to the even significand.  With `s = 0` below `2^24`
units this covers the subnormal range; values of `2^128` and more, which
would round to infinity, do not occur in the codec. -/
def f32Round (num den : Nat) : Nat :=
  let s := f32Exp 256 (num / den)
  let grid := den * 2 ^ s
  let m := num / grid
  let r := num % grid
  if 2 * r < grid then m * 2 ^ s
  else if 2 * r = grid ∧ m % 2 = 0 then m * 2 ^ s
  else (m + 1) * 2 ^ s

/-- The literal `0.299f`. -/
def c0299 : Nat := f32Round (299 * f32Unit) 1000

/-- The literal `0.587f`. -/
def c0587 : Nat := f32Round (587 * f32Unit) 1000

/-- The literal `0.114f`. -/
def c0114 : Nat := f32Round (114 * f32Unit) 1000

/-- Conversion of an integer sample to `float`. -/
def f32OfNat (n : Nat) : Nat := f32Round (n * f32Unit) 1

/-- The `float` product. -/
def f32Mul (a b : Nat) : Nat := f32Round (a * b) f32Unit

/-- The `float` sum. -/
def f32Add (a b : Nat) : Nat := f32Round (a + b) 1

/-- Integer part of a `float`. -/
def f32Trunc (a : Nat) : Nat := a / f32Unit

/-! ## Transform: `convertToGrayscale` (lines 94-109) -/

/-- Lines 104-106: the weighted sum, as the `float` it is computed in. -/
def weightedSum (p : Pixel) : Nat :=
  f32Add (f32Add (f32Mul c0299 (f32OfNat p.red)) (f32Mul c0587 (f32OfNat p.green)))
    (f32Mul c0114 (f32OfNat p.blue))

/-- Lines 103-107: the value stored in `img->grayscale[i]`, the weighted sum
converted to `uint8_t`. -/
def luminance (p : Pixel) : Nat := toUInt8 (f32Trunc (weightedSum p))

/-- Lines 102-108: the conversion loop; `g` is the memory of `img->grayscale`,
`i` the loop counter and `n` the number of iterations left. -/
def grayLoop (pixels : List Pixel) : Nat → Int → List Nat → List Nat
  | 0, _, g => g
  | n + 1, i, g =>
    grayLoop pixels n (toInt32 (i + 1))
      (g.set i.toNat (luminance (pixels.getD i.toNat ⟨0, 0, 0⟩)))

/-- The function `convertToGrayscale`: the Image after the call (`none` when
the pointer is `NULL`). -/
def convertToGrayscale (u : Uninit) (img : Option Image) : Option Image :=
  match img with
  | none => none
  | some img =>
    match img.pixels with
    | none => some img
    | some pixels =>
      let count := toInt32 (img.width * img.height)
      let grayscale := match img.grayscale with
        | some g => g
        | none => (List.range (toSizeT count)).map u.heap
      some { img with grayscale := some (grayLoop pixels count.toNat 0 grayscale) }

/-! ## Encoder: `saveGrayscaleBMP` (lines 112-167) -/

/-- Line 119: `(4 - (img->width % 4)) % 4`, with the truncating `%` of C. -/
def savePaddingSize (width : Int) : Int :=
  toInt32 ((toInt32 (4 - width.tmod 4)).tmod 4)

/-- Line 120: `img->width * img->height + (paddingSize * img->height)`. -/
def saveDataSize (img : Image) : Int :=
  toInt32 (toInt32 (img.width * img.height)
    + toInt32 (savePaddingSize img.width * img.height))

/-- Line 121: `sizeof(BMPHeader) + sizeof(BMPInfoHeader) + dataSize`, computed
in `size_t` and stored in an `int`. -/
def saveFileSize (img : Image) : Int :=
  toInt32 (toSizeT (sizeofBMPHeader + sizeofBMPInfoHeader
    + (toSizeT (saveDataSize img) : Int)))

/-- Lines 124-130: the primary header that is written. -/
def saveHeader (img : Image) : BMPHeader where
  signature := 0x4D42
  filesize := toUInt32 (saveFileSize img)
  reserved1 := 0
  reserved2 := 0
  dataOffset := toUInt32 (sizeofBMPHeader + sizeofBMPInfoHeader)

/-- Lines 132-144: the info header that is written. -/
def saveInfoHeader (img : Image) : BMPInfoHeader where
  headerSize := toUInt32 sizeofBMPInfoHeader
  width := toInt32 img.width
  height := toInt32 img.height
  planes := 1
  bitsPerPixel := 8
  compression := 0
  imageSize := toUInt32 (saveDataSize img)
  xPixelsPerM := 0
  yPixelsPerM := 0
  colorsUsed := 256
  colorsImp := 256

/-- Lines 151-157: the color table loop; `out` is what the file holds so far,
`i` the loop counter and `n` the number of iterations left. -/
def colorTableLoop : Nat → Nat → List Nat → List Nat
  | 0, _, out => out
  | n + 1, i, out =>
    let gray := toUInt8 i
    colorTableLoop n (i + 1) (out ++ [gray] ++ [gray] ++ [gray] ++ [gray])

/-- Line 160: `uint8_t padding[3] = {0, 0, 0}`. -/
def padding : List Nat := [0, 0, 0]

/-- The call `fwrite(ptr + off, 1, count, file)`: the `count` bytes of the
buffer from index `off` on. -/
def fwrite (buf : List Nat) (off : Int) (count : Int) : List Nat :=
  (buf.drop off.toNat).take (toSizeT count)

/-- Lines 161-164: the pixel row loop; `out` is what the file holds so far,
`y` the loop counter and `n` the number of iterations left. -/
def writeRowsLoop (width : Int) (grayscale : List Nat) (paddingSize : Int) :
    Nat → Int → List Nat → List Nat
  | 0, _, out => out
  | n + 1, y, out =>
    writeRowsLoop width grayscale paddingSize n (toInt32 (y + 1))
      (out ++ fwrite grayscale (toInt32 (y * width)) width
        ++ fwrite padding 0 paddingSize)

/-- The function `saveGrayscaleBMP`.  `opens` tells whether `fopen` succeeds.
The result is the content of the file that was written, or `none` when the
function returned without writing (it is `void`: nothing else is reported). -/
def saveGrayscaleBMP (opens : Bool) (img : Option Image) : Option (List Nat) :=
  match img with
  | none => none
  | some img =>
    match img.grayscale with
    | none => none
    | some grayscale =>
      if !opens then none
      else
        let paddingSize := savePaddingSize img.width
        let out := (saveHeader img).bytes
        let out := out ++ (saveInfoHeader img).bytes
        let out := colorTableLoop 256 0 out
        some (writeRowsLoop img.width grayscale paddingSize img.height.toNat 0 out)

/-! ## Specification-side definitions -/

/-- Every value that the `int` arithmetic of the codec computes for this Image
(pixel count, row offsets, data size, file size) fits in an `int`, so that no
signed overflow occurs. -/
def InIntRange (img : Image) : Prop :=
  img.width < 2147483648 ∧ img.height < 2147483648 ∧
    img.width * img.height + 3 * img.height + 54 < 2147483648

instance (img : Image) : Decidable (InIntRange img) := by
  unfold InIntRange; infer_instance

/-- A byte source: every element is a byte. -/
def IsBytes (bs : List Nat) : Prop := ∀ b ∈ bs, b < 256

instance (bs : List Nat) : Decidable (IsBytes bs) := by
  unfold IsBytes; infer_instance

/-- The color table as the code fills it: entry `i` is four bytes `i`. -/
def colorTable : List Nat := (List.range 256).flatMap fun i => [i, i, i, i]

/-- Row `y` of a `w`-wide grayscale plane followed by `p` zero bytes. -/
def paddedRow (w p : Nat) (g : List Nat) (y : Nat) : List Nat :=
  (g.drop (y * w)).take w ++ List.replicate p 0

/-- The `h` padded rows in index order. -/
def pixelRows (w h p : Nat) (g : List Nat) : List Nat :=
  (List.range h).flatMap (paddedRow w p g)

/-- Row padding of the 8-bit output: `(4 - w mod 4) mod 4`. -/
def pad8 (w : Nat) : Nat := (4 - w % 4) % 4

/-- Row padding of the 24-bit input: `(4 - (3*w) mod 4) mod 4`. -/
def pad24 (w : Nat) : Nat := (4 - (3 * w) % 4) % 4

/-- A `Pixel` whose three samples are bytes. -/
def IsPixel (p : Pixel) : Prop := p.blue < 256 ∧ p.green < 256 ∧ p.red < 256

instance (p : Pixel) : Decidable (IsPixel p) := by
  unfold IsPixel; infer_instance

/-- An upper bound on the binary32 value nearest to `x` units: `x` plus one unit
in the last place of `x`. -/
def f32Bound (x : Nat) : Nat := x + x / 8388608 + 1

/-- Indeterminate memory in which every byte of a fresh block is `0xCD`. -/
def staleMemory : Uninit := ⟨fun _ => 0, fun _ => 0xCD⟩

/-- The 54 header bytes of a 24-bit BMP file of width `w` and height `h`. -/
def bmpHeaderBytes (w h : Nat) : List Nat :=
  [0x42, 0x4D] ++ le32 0 ++ le16 0 ++ le16 0 ++ le32 54
    ++ le32 40 ++ le32 w ++ le32 h ++ le16 1 ++ le16 24 ++ le32 0 ++ le32 0
    ++ le32 0 ++ le32 0 ++ le32 0 ++ le32 0

/-- A complete 24-bit BMP file of width 2 and height 2: each row is 6 pixel
bytes and 2 bytes of padding. -/
def sampleBMP : List Nat :=
  bmpHeaderBytes 2 2 ++ [1, 2, 3, 4, 5, 6, 0, 0] ++ [7, 8, 9, 10, 11, 12, 0, 0]

/-- A 24-bit BMP file of width 2 and height 1 cut after the first pixel: it
holds 3 of its 8 bytes of pixel data. -/
def truncatedBMP : List Nat := bmpHeaderBytes 2 1 ++ [1, 2, 3]

/-- A file that starts with "BN". -/
def notBMP : List Nat := [0x42, 0x4E, 0, 0]

/-- A decoded 2x1 Image: a pure red and a pure green pixel, no grayscale
buffer yet. -/
def decoded2x1 : Image :=
  ⟨2, 1, some [{ red := 255, green := 0, blue := 0 }, { red := 0, green := 255, blue := 0 }],
    none⟩

/-- A 1x1 Image with a grayscale buffer. -/
def image1x1 : Image := ⟨1, 1, none, some [7]⟩

/-- A 3x2 Image with a grayscale buffer. -/
def image3x2 : Image := ⟨3, 2, none, some [1, 2, 3, 4, 5, 6]⟩

/-- Rounding of `num / den` at a given exponent `s`: the nearest multiple of
`2^s`, ties going to the even multiple.  `f32Round` is this rounding at the
exponent that `f32Exp` finds. -/
def f32RoundAt (s num den : Nat) : Nat :=
  let grid := den * 2 ^ s
  let m := num / grid
  let r := num % grid
  if 2 * r < grid then m * 2 ^ s
  else if 2 * r = grid ∧ m % 2 = 0 then m * 2 ^ s
  else (m + 1) * 2 ^ s

/-- A neutral gray pixel: red = green = blue = `k`. -/
def grayPixel (k : Nat) : Pixel := ⟨k, k, k⟩

/-- The gray levels `k` that the conversion maps to `k - 1`. -/
def darkenedGrays : List Nat :=
  [37, 61, 74, 93, 111, 122, 148, 186, 215, 222, 233, 244, 253]

/-- An Image that has no pixel buffer and no grayscale buffer. -/
def emptyImage : Image := ⟨2, 1, none, none⟩

/-- The decoded 2x1 Image with a grayscale buffer that holds stale samples. -/
def regraded2x1 : Image := { decoded2x1 with grayscale := some [9, 9] }

/-- The complete 2x2 file with its bitsPerPixel field (offset 28) set to 8. -/
def sampleBMP8 : List Nat := sampleBMP.set 28 8

/-! ## Machine integers: conversions that do not wrap -/

theorem toInt32_eq {n : Int} (h1 : -2147483648 ≤ n) (h2 : n < 2147483648) :
    toInt32 n = n := by
  unfold toInt32; omega

theorem toUInt32_natCast {n : Nat} (h : n < 4294967296) : toUInt32 (n : Int) = n := by
  unfold toUInt32; omega

theorem toSizeT_natCast {n : Nat} (h : n < 18446744073709551616) :
    toSizeT (n : Int) = n := by
  unfold toSizeT; omega

theorem toUInt8_natCast {n : Nat} (h : n < 256) : toUInt8 (n : Int) = n := by
  unfold toUInt8; omega

/-! ## Lists of equally long blocks -/

theorem byteAt_eq_of_getElem? {bs : List Nat} {i v : Nat} (h : bs[i]? = some v) :
    byteAt bs i = v := by
  simp [byteAt, List.getD, h]

theorem byteAt_append_left {a b : List Nat} {i : Nat} (h : i < a.length) :
    byteAt (a ++ b) i = byteAt a i := by
  simp [byteAt, List.getD, List.getElem?_append_left h]

theorem byteAt_append_right {a b : List Nat} (i : Nat) :
    byteAt (a ++ b) (a.length + i) = byteAt b i := by
  simp [byteAt, List.getD, List.getElem?_append_right]

/-- Element `c` of block `y` of a concatenation of blocks of length `L`. -/
theorem getElem?_flatMap_range' {α : Type} (f : Nat → List α) (L : Nat) :
    ∀ (n s y c : Nat), (∀ i, s ≤ i → i < s + n → (f i).length = L) → y < n → c < L →
      ((List.range' s n).flatMap f)[y * L + c]? = (f (s + y))[c]? := by
  intro n
  induction n with
  | zero => intro s y c _ hy; omega
  | succ n ih =>
    intro s y c hL hy hc
    rw [List.range'_succ, List.flatMap_cons]
    have hs : (f s).length = L := hL s (by omega) (by omega)
    cases y with
    | zero =>
      rw [List.getElem?_append_left (by omega)]
      simp
    | succ y =>
      rw [List.getElem?_append_right (by rw [hs, Nat.succ_mul]; omega)]
      have e : (y + 1) * L + c - (f s).length = y * L + c := by
        rw [hs, Nat.succ_mul]; omega
      rw [e, ih (s + 1) y c (fun i h1 h2 => hL i (by omega) (by omega)) (by omega) hc]
      congr 2; omega

/-- Length of a concatenation of `n` blocks of length `L`. -/
theorem length_flatMap_range' {α : Type} (f : Nat → List α) (L : Nat) :
    ∀ (n s : Nat), (∀ i, s ≤ i → i < s + n → (f i).length = L) →
      ((List.range' s n).flatMap f).length = n * L := by
  intro n
  induction n with
  | zero => intro s _; simp
  | succ n ih =>
    intro s hL
    rw [List.range'_succ, List.flatMap_cons, List.length_append,
      ih (s + 1) (fun i h1 h2 => hL i (by omega) (by omega)), hL s (by omega) (by omega),
      Nat.succ_mul]
    omega

/-! ## Encoder: the loops in closed form -/

theorem savePaddingSize_natCast (w : Nat) : savePaddingSize (w : Int) = (pad8 w : Int) := by
  unfold savePaddingSize pad8
  have h1 : ((w : Int)).tmod 4 = ((w % 4 : Nat) : Int) := by
    rw [Int.tmod_eq_emod (by omega) (by omega)]; omega
  rw [h1]
  have h2 : toInt32 (4 - ((w % 4 : Nat) : Int)) = ((4 - w % 4 : Nat) : Int) := by
    rw [toInt32_eq (by omega) (by omega)]; omega
  rw [h2, Int.tmod_eq_emod (by omega) (by omega), toInt32_eq (by omega) (by omega)]
  omega

theorem pad8_le (w : Nat) : pad8 w ≤ 3 := by
  unfold pad8; omega

theorem colorTableLoop_eq (n i : Nat) (out : List Nat) (h : i + n ≤ 256) :
    colorTableLoop n i out = out ++ (List.range' i n).flatMap fun i => [i, i, i, i] := by
  induction n generalizing i out with
  | zero => simp [colorTableLoop]
  | succ n ih =>
    have hi : toUInt8 (i : Int) = i := toUInt8_natCast (by omega)
    simp only [colorTableLoop, hi]
    rw [ih (i + 1) _ (by omega), List.range'_succ, List.flatMap_cons]
    simp

theorem colorTable_length : colorTable.length = 1024 := by
  unfold colorTable
  rw [List.range_eq_range', length_flatMap_range' (fun i => [i, i, i, i]) 4 256 0 (fun _ _ _ => rfl)]

theorem colorTable_getElem? (i k : Nat) (hi : i < 256) (hk : k < 4) :
    colorTable[i * 4 + k]? = some i := by
  unfold colorTable
  rw [List.range_eq_range',
    getElem?_flatMap_range' (fun i => [i, i, i, i]) 4 256 0 i k (fun _ _ _ => rfl) hi hk]
  interval_cases k <;> simp

theorem writeRowsLoop_append (width : Int) (g : List Nat) (p : Int) (n : Nat) :
    ∀ (y : Int) (out : List Nat),
      writeRowsLoop width g p n y out = out ++ writeRowsLoop width g p n y [] := by
  induction n with
  | zero => intro y out; simp [writeRowsLoop]
  | succ n ih =>
    intro y out
    simp only [writeRowsLoop]
    rw [ih, ih _ ([] ++ _ ++ _)]
    simp

theorem fwrite_padding (p : Nat) (hp : p ≤ 3) :
    fwrite padding 0 (p : Int) = List.replicate p 0 := by
  unfold fwrite padding
  rw [toSizeT_natCast (by omega)]
  interval_cases p <;> rfl

theorem fwrite_natCast (g : List Nat) (k w : Nat) (hw : w < 18446744073709551616) :
    fwrite g (k : Int) (w : Int) = (g.drop k).take w := by
  unfold fwrite
  rw [toSizeT_natCast hw, Int.toNat_natCast]

/-- The row loop of the encoder appends the padded rows `y`, `y + 1`, ... -/
theorem writeRowsLoop_eq (w h p : Nat) (g : List Nat) (hp : p ≤ 3)
    (hwh : w * h < 2147483648) (hh : h < 2147483648) (n y : Nat) (out : List Nat)
    (hy : y + n ≤ h) :
    writeRowsLoop (w : Int) g (p : Int) n (y : Int) out
      = out ++ (List.range' y n).flatMap (paddedRow w p g) := by
  induction n generalizing y out with
  | zero => simp [writeRowsLoop]
  | succ n ih =>
    have hyw : y * w < 2147483648 := by
      have : y * w ≤ h * w := Nat.mul_le_mul_right w (by omega)
      rw [Nat.mul_comm h w] at this; omega
    have hw : w < 2147483648 := by
      have : w * 1 ≤ w * h := Nat.mul_le_mul_left w (by omega)
      omega
    have e1 : toInt32 ((y : Int) + 1) = ((y + 1 : Nat) : Int) := by
      rw [toInt32_eq (by omega) (by omega)]; omega
    have e2 : toInt32 ((y : Int) * (w : Int)) = ((y * w : Nat) : Int) := by
      have e : (y : Int) * (w : Int) = ((y * w : Nat) : Int) := by push_cast; ring
      rw [e, toInt32_eq (by omega) (by omega)]
    have e3 : fwrite g ((y * w : Nat) : Int) (w : Int) = (g.drop (y * w)).take w :=
      fwrite_natCast g (y * w) w (by omega)
    simp only [writeRowsLoop, e1, e2, e3, fwrite_padding p hp]
    rw [ih (y + 1) _ (by omega), List.range'_succ, List.flatMap_cons]
    simp [paddedRow]

theorem headerBytes_length (h : BMPHeader) : h.bytes.length = 14 := rfl

theorem infoHeaderBytes_length (h : BMPInfoHeader) : h.bytes.length = 40 := rfl

/-- What `saveGrayscaleBMP` writes, for any Image that has a grayscale buffer:
the two headers, the color table, then the output of the row loop. -/
theorem saveGrayscaleBMP_eq (img : Image) (g : List Nat) (hg : img.grayscale = some g) :
    saveGrayscaleBMP true (some img)
      = some ((saveHeader img).bytes ++ (saveInfoHeader img).bytes ++ colorTable
          ++ writeRowsLoop img.width g (savePaddingSize img.width) img.height.toNat 0 []) := by
  simp only [saveGrayscaleBMP, hg, Bool.not_true, Bool.false_eq_true, if_false]
  rw [colorTableLoop_eq 256 0 _ (by omega), writeRowsLoop_append]
  simp [colorTable, List.range_eq_range']

/-- The row loop of an Image whose sizes fit in an `int`. -/
theorem writeRowsLoop_rows (img : Image) (g : List Nat) (w h : Nat)
    (hw : img.width = w) (hh : img.height = h) (hr : InIntRange img) :
    writeRowsLoop img.width g (savePaddingSize img.width) img.height.toNat 0 []
      = pixelRows w h (pad8 w) g := by
  obtain ⟨h1, h2, h3⟩ := hr
  simp only [hw, hh] at h1 h2 h3
  have hwh : w * h < 2147483648 := by
    have : ((w * h : Nat) : Int) < 2147483648 := by push_cast; omega
    exact_mod_cast this
  rw [hw, hh, savePaddingSize_natCast, Int.toNat_natCast]
  have := writeRowsLoop_eq w h (pad8 w) g (pad8_le w) hwh (by omega) h 0 [] (by omega)
  simpa [pixelRows, List.range_eq_range'] using this

theorem paddedRow_length (w p : Nat) (g : List Nat) (h y : Nat) (hlen : g.length = w * h)
    (hy : y < h) : (paddedRow w p g y).length = w + p := by
  have : y * w + w ≤ w * h := by
    have : (y + 1) * w ≤ h * w := Nat.mul_le_mul_right w (by omega)
    rw [Nat.succ_mul, Nat.mul_comm h w] at this; exact this
  simp [paddedRow]; omega

theorem pixelRows_length (w h p : Nat) (g : List Nat) (hlen : g.length = w * h) :
    (pixelRows w h p g).length = h * (w + p) := by
  unfold pixelRows
  rw [List.range_eq_range']
  exact length_flatMap_range' _ (w + p) h 0
    (fun i _ hi => paddedRow_length w p g h i hlen (by omega))

/-! ## Encoder: the header fields of the written file -/

theorem le32_value (n : Nat) :
    n % 256 + 256 * (n / 256 % 256) + 65536 * (n / 65536 % 256)
      + 16777216 * (n / 16777216 % 256) = n % 4294967296 := by
  omega

theorem toUInt32_lt (n : Int) : toUInt32 n < 4294967296 := by
  unfold toUInt32; omega

theorem rd32_append_le32 (a : List Nat) (n : Nat) (b : List Nat) :
    rd32 (a ++ le32 n ++ b) a.length = n % 4294967296 := by
  have e : a ++ le32 n ++ b = a ++ (le32 n ++ b) := List.append_assoc _ _ _
  have h0 := byteAt_append_right (a := a) (b := le32 n ++ b) 0
  have h1 := byteAt_append_right (a := a) (b := le32 n ++ b) 1
  have h2 := byteAt_append_right (a := a) (b := le32 n ++ b) 2
  have h3 := byteAt_append_right (a := a) (b := le32 n ++ b) 3
  rw [Nat.add_zero] at h0
  unfold rd32
  rw [e, h0, h1, h2, h3]
  exact le32_value n

theorem rd16_append_le16 (a : List Nat) (n : Nat) (b : List Nat) :
    rd16 (a ++ le16 n ++ b) a.length = n % 65536 := by
  have e : a ++ le16 n ++ b = a ++ (le16 n ++ b) := List.append_assoc _ _ _
  have h0 := byteAt_append_right (a := a) (b := le16 n ++ b) 0
  have h1 := byteAt_append_right (a := a) (b := le16 n ++ b) 1
  rw [Nat.add_zero] at h0
  unfold rd16
  rw [e, h0, h1]
  show n % 256 + 256 * (n / 256 % 256) = _
  omega

/-- The 32-bit fields at offsets 2, 10, 18, 22 and 34 and the 16-bit fields at
26 and 28 of a file that starts with the two headers. -/
theorem header_fields (hd : BMPHeader) (ih : BMPInfoHeader) (rest : List Nat) :
    rd32 (hd.bytes ++ ih.bytes ++ rest) 2 = hd.filesize % 4294967296 ∧
    rd32 (hd.bytes ++ ih.bytes ++ rest) 10 = hd.dataOffset % 4294967296 ∧
    rd32 (hd.bytes ++ ih.bytes ++ rest) 18 = toUInt32 ih.width ∧
    rd32 (hd.bytes ++ ih.bytes ++ rest) 22 = toUInt32 ih.height ∧
    rd32 (hd.bytes ++ ih.bytes ++ rest) 34 = ih.imageSize % 4294967296 ∧
    rd16 (hd.bytes ++ ih.bytes ++ rest) 26 = ih.planes % 65536 ∧
    rd16 (hd.bytes ++ ih.bytes ++ rest) 28 = ih.bitsPerPixel % 65536 := by
  refine ⟨?_, ?_, ?_, ?_, ?_, ?_, ?_⟩
  · have := rd32_append_le32 (le16 hd.signature) hd.filesize
      (le16 hd.reserved1 ++ le16 hd.reserved2 ++ le32 hd.dataOffset ++ ih.bytes ++ rest)
    simpa [BMPHeader.bytes, le16] using this
  · have := rd32_append_le32 (le16 hd.signature ++ le32 hd.filesize ++ le16 hd.reserved1
      ++ le16 hd.reserved2) hd.dataOffset (ih.bytes ++ rest)
    simpa [BMPHeader.bytes, le16, le32] using this
  · have := rd32_append_le32 (hd.bytes ++ le32 ih.headerSize) (toUInt32 ih.width)
      (le32 (toUInt32 ih.height)
        ++ le16 ih.planes ++ le16 ih.bitsPerPixel ++ le32 ih.compression
        ++ le32 ih.imageSize ++ le32 (toUInt32 ih.xPixelsPerM)
        ++ le32 (toUInt32 ih.yPixelsPerM) ++ le32 ih.colorsUsed ++ le32 ih.colorsImp ++ rest)
    rw [Nat.mod_eq_of_lt (toUInt32_lt _)] at this
    simpa [BMPHeader.bytes, BMPInfoHeader.bytes, le16, le32] using this
  · have := rd32_append_le32 (hd.bytes ++ le32 ih.headerSize ++ le32 (toUInt32 ih.width))
      (toUInt32 ih.height)
      (le16 ih.planes ++ le16 ih.bitsPerPixel ++ le32 ih.compression
        ++ le32 ih.imageSize ++ le32 (toUInt32 ih.xPixelsPerM)
        ++ le32 (toUInt32 ih.yPixelsPerM) ++ le32 ih.colorsUsed ++ le32 ih.colorsImp ++ rest)
    rw [Nat.mod_eq_of_lt (toUInt32_lt _)] at this
    simpa [BMPHeader.bytes, BMPInfoHeader.bytes, le16, le32] using this
  · have := rd32_append_le32 (hd.bytes ++ le32 ih.headerSize ++ le32 (toUInt32 ih.width)
      ++ le32 (toUInt32 ih.height) ++ le16 ih.planes ++ le16 ih.bitsPerPixel
      ++ le32 ih.compression) ih.imageSize
      (le32 (toUInt32 ih.xPixelsPerM)
        ++ le32 (toUInt32 ih.yPixelsPerM) ++ le32 ih.colorsUsed ++ le32 ih.colorsImp ++ rest)
    simpa [BMPHeader.bytes, BMPInfoHeader.bytes, le16, le32] using this
  · have := rd16_append_le16 (hd.bytes ++ le32 ih.headerSize ++ le32 (toUInt32 ih.width)
      ++ le32 (toUInt32 ih.height)) ih.planes
      (le16 ih.bitsPerPixel ++ le32 ih.compression
        ++ le32 ih.imageSize ++ le32 (toUInt32 ih.xPixelsPerM)
        ++ le32 (toUInt32 ih.yPixelsPerM) ++ le32 ih.colorsUsed ++ le32 ih.colorsImp ++ rest)
    simpa [BMPHeader.bytes, BMPInfoHeader.bytes, le16, le32] using this
  · have := rd16_append_le16 (hd.bytes ++ le32 ih.headerSize ++ le32 (toUInt32 ih.width)
      ++ le32 (toUInt32 ih.height) ++ le16 ih.planes) ih.bitsPerPixel
      (le32 ih.compression
        ++ le32 ih.imageSize ++ le32 (toUInt32 ih.xPixelsPerM)
        ++ le32 (toUInt32 ih.yPixelsPerM) ++ le32 ih.colorsUsed ++ le32 ih.colorsImp ++ rest)
    simpa [BMPHeader.bytes, BMPInfoHeader.bytes, le16, le32] using this

theorem headersTable_length (hd : BMPHeader) (ih : BMPInfoHeader) :
    (hd.bytes ++ ih.bytes ++ colorTable).length = 1078 := by
  rw [List.length_append, List.length_append, colorTable_length]; rfl

theorem saveDataSize_eq (img : Image) (w h : Nat) (hw : img.width = w) (hh : img.height = h)
    (hr : InIntRange img) : saveDataSize img = ((h * (w + pad8 w) : Nat) : Int) := by
  obtain ⟨h1, h2, h3⟩ := hr
  simp only [hw, hh] at h1 h2 h3
  have hp := pad8_le w
  have hwh : (0 : Int) ≤ (w : Int) * h := by positivity
  have hph : (0 : Int) ≤ (pad8 w : Int) * h := by positivity
  have hph2 : (pad8 w : Int) * h ≤ 3 * h := by
    have : (pad8 w : Int) ≤ 3 := by exact_mod_cast hp
    nlinarith
  have e1 : toInt32 ((w : Int) * h) = (w : Int) * h := toInt32_eq (by omega) (by omega)
  have e2 : toInt32 ((pad8 w : Int) * h) = (pad8 w : Int) * h :=
    toInt32_eq (by omega) (by omega)
  unfold saveDataSize
  rw [hw, hh, savePaddingSize_natCast, e1, e2, toInt32_eq (by omega) (by omega)]
  push_cast; ring

theorem saveFileSize_eq (img : Image) (w h : Nat) (hw : img.width = w) (hh : img.height = h)
    (hr : InIntRange img) : saveFileSize img = ((54 + h * (w + pad8 w) : Nat) : Int) := by
  have hd := saveDataSize_eq img w h hw hh hr
  have hb : saveDataSize img + 54 < 2147483648 := by
    obtain ⟨h1, h2, h3⟩ := hr
    simp only [hw, hh] at h1 h2 h3
    have hp := pad8_le w
    have hph2 : (pad8 w : Int) * h ≤ 3 * h := by
      have : (pad8 w : Int) ≤ 3 := by exact_mod_cast hp
      nlinarith
    rw [hd]; push_cast; nlinarith
  rw [hd] at hb
  unfold saveFileSize
  rw [hd, toSizeT_natCast (by omega)]
  simp only [sizeofBMPHeader, sizeofBMPInfoHeader]
  have e : ((14 : Nat) : Int) + ((40 : Nat) : Int) + ((h * (w + pad8 w) : Nat) : Int)
      = ((54 + h * (w + pad8 w) : Nat) : Int) := by push_cast; ring
  rw [e, toSizeT_natCast (by omega), toInt32_eq (by omega) (by omega)]

/-- The written file of an Image whose grayscale buffer holds `w * h` samples
and whose sizes fit in an `int`: its content, the values of the two size fields
and of the offset field, and its length. -/
theorem saveGrayscaleBMP_layout (img : Image) (g : List Nat) (w h : Nat)
    (hg : img.grayscale = some g) (hw : img.width = w) (hh : img.height = h)
    (hlen : g.length = w * h) (hr : InIntRange img) :
    ∃ out, saveGrayscaleBMP true (some img) = some out ∧
      out = (saveHeader img).bytes ++ (saveInfoHeader img).bytes ++ colorTable
        ++ pixelRows w h (pad8 w) g ∧
      rd32 out 2 = 54 + h * (w + pad8 w) ∧
      rd32 out 10 = 54 ∧
      rd32 out 34 = h * (w + pad8 w) ∧
      out.length = 1078 + h * (w + pad8 w) := by
  have hd := saveDataSize_eq img w h hw hh hr
  have hf := saveFileSize_eq img w h hw hh hr
  have hb : ((54 + h * (w + pad8 w) : Nat) : Int) < 2147483648 := by
    rw [← hf]; unfold saveFileSize toInt32; omega
  refine ⟨_, (saveGrayscaleBMP_eq img g hg).trans
    (by rw [writeRowsLoop_rows img g w h hw hh hr]), rfl, ?_, ?_, ?_, ?_⟩
  · rw [List.append_assoc, (header_fields _ _ _).1]
    simp only [saveHeader]
    rw [hf, toUInt32_natCast (by omega)]
    omega
  · rw [List.append_assoc, (header_fields _ _ _).2.1]
    simp only [saveHeader, sizeofBMPHeader, sizeofBMPInfoHeader]
    rw [show ((14 : Nat) : Int) + ((40 : Nat) : Int) = ((54 : Nat) : Int) from rfl,
      toUInt32_natCast (by omega)]
  · rw [List.append_assoc, (header_fields _ _ _).2.2.2.2.1]
    simp only [saveInfoHeader]
    rw [hd, toUInt32_natCast (by omega)]
    omega
  · rw [List.length_append, headersTable_length, pixelRows_length w h _ g hlen]

/-! ## Decoder: `fread` and the headers -/

theorem fread_length (dst : List Nat) (f : FILE) : (fread dst f).1.length = dst.length := by
  simp only [fread, List.length_append, List.length_take, List.length_drop]
  omega

theorem fread_full (dst : List Nat) (f : FILE) (h : f.pos + dst.length ≤ f.data.length) :
    fread dst f = ((f.data.drop f.pos).take dst.length, ⟨f.data, f.pos + dst.length⟩) := by
  have hl : ((f.data.drop f.pos).take dst.length).length = dst.length := by
    simp only [List.length_take, List.length_drop]; omega
  simp only [fread, hl, List.drop_length, List.append_nil]

theorem fread_getElem? (dst : List Nat) (f : FILE) (i : Nat)
    (h : f.pos + i < f.data.length) (hi : i < dst.length) :
    (fread dst f).1[i]? = f.data[f.pos + i]? := by
  have hl : i < ((f.data.drop f.pos).take dst.length).length := by
    simp only [List.length_take, List.length_drop]; omega
  simp only [fread]
  rw [List.getElem?_append_left hl, List.getElem?_take, if_pos hi, List.getElem?_drop]

theorem byteAt_congr {a b : List Nat} {i j : Nat} (h : a[i]? = b[j]?) :
    byteAt a i = byteAt b j := by
  simp [byteAt, List.getD, h]

theorem byteAt_drop_take (l : List Nat) (a n i : Nat) (hi : i < n) :
    byteAt ((l.drop a).take n) i = byteAt l (a + i) := by
  apply byteAt_congr
  rw [List.getElem?_take, if_pos hi, List.getElem?_drop]

/-- The signature that `readBMP` tests is made of the first two bytes of a
source that has them. -/
theorem readBMP_signature (u : Uninit) (src : List Nat) (h2 : 2 ≤ src.length) :
    (BMPHeader.parse (fread ((List.range sizeofBMPHeader).map u.stack) ⟨src, 0⟩).1).signature
      = rd16 src 0 := by
  simp only [BMPHeader.parse, rd16]
  rw [byteAt_congr (fread_getElem? _ ⟨src, 0⟩ 0 (by simp; omega) (by simp [sizeofBMPHeader])),
    byteAt_congr (fread_getElem? _ ⟨src, 0⟩ 1 (by simp; omega) (by simp [sizeofBMPHeader]))]

/-- A source that has no "BM" signature is refused. -/
theorem readBMP_none_of_signature (u : Uninit) (src : List Nat) (h2 : 2 ≤ src.length)
    (hsig : rd16 src 0 ≠ 0x4D42) : readBMP u (some src) = none := by
  have hs := readBMP_signature u src h2
  simp only [readBMP]
  rw [if_pos (by rw [hs]; exact hsig)]

/-- A source that has the "BM" signature is never refused. -/
theorem readBMP_isSome_of_signature (u : Uninit) (src : List Nat) (h2 : 2 ≤ src.length)
    (hsig : rd16 src 0 = 0x4D42) : (readBMP u (some src)).isSome = true := by
  have hs := readBMP_signature u src h2
  simp only [readBMP]
  rw [if_neg (by rw [hs]; exact fun h => h hsig)]
  rfl

theorem fread_header (u : Uninit) (src : List Nat) (h54 : 54 ≤ src.length) :
    fread ((List.range sizeofBMPHeader).map u.stack) ⟨src, 0⟩ = (src.take 14, ⟨src, 14⟩) := by
  rw [fread_full _ _ (by simp [sizeofBMPHeader]; omega)]
  simp [sizeofBMPHeader]

theorem fread_infoHeader (u : Uninit) (src : List Nat) (h54 : 54 ≤ src.length) :
    fread ((List.range sizeofBMPInfoHeader).map fun i => u.stack (sizeofBMPHeader + i))
      ⟨src, 14⟩ = ((src.drop 14).take 40, ⟨src, 54⟩) := by
  rw [fread_full _ _ (by simp [sizeofBMPInfoHeader]; omega)]
  simp [sizeofBMPInfoHeader]

/-- The Image that `readBMP` returns for a source that has the signature and
the 54 header bytes: the declared width and height, and the pixel memory that
the row loop leaves. -/
theorem readBMP_of_headers (u : Uninit) (src : List Nat) (h54 : 54 ≤ src.length)
    (hsig : rd16 src 0 = 0x4D42) :
    readBMP u (some src) = some ⟨toInt32 (rd32 src 18), toInt32 (rd32 src 22),
      some (toPixels (readRowsLoop (toInt32 (rd32 src 18))
        (readPaddingSize (toInt32 (rd32 src 18))) (toInt32 (rd32 src 22)).toNat 0
        ((List.range (readAllocSize (toInt32 (rd32 src 18)) (toInt32 (rd32 src 22)))).map
          u.heap) ⟨src, 54⟩).1), none⟩ := by
  have hs := readBMP_signature u src (by omega)
  have ew : rd32 ((src.drop 14).take 40) 4 = rd32 src 18 := by
    simp only [rd32]
    rw [byteAt_drop_take _ _ _ _ (by omega), byteAt_drop_take _ _ _ _ (by omega),
      byteAt_drop_take _ _ _ _ (by omega), byteAt_drop_take _ _ _ _ (by omega)]
  have eh : rd32 ((src.drop 14).take 40) 8 = rd32 src 22 := by
    simp only [rd32]
    rw [byteAt_drop_take _ _ _ _ (by omega), byteAt_drop_take _ _ _ _ (by omega),
      byteAt_drop_take _ _ _ _ (by omega), byteAt_drop_take _ _ _ _ (by omega)]
  simp only [readBMP]
  rw [if_neg (by rw [hs]; exact fun h => h hsig)]
  simp only [fread_header u src h54, fread_infoHeader u src h54, BMPInfoHeader.parse, ew, eh]

/-! ## Decoder: the row loop -/

theorem pad24_le (w : Nat) : pad24 w ≤ 3 := by
  unfold pad24; omega

theorem readPaddingSize_natCast (w : Nat) (hw : w < 2147483648) :
    readPaddingSize (w : Int) = (pad24 w : Int) := by
  unfold readPaddingSize pad24
  simp only [sizeofPixel]
  have e1 : ((toSizeT (w : Int) : Nat) : Int) * ((3 : Nat) : Int) = ((3 * w : Nat) : Int) := by
    rw [toSizeT_natCast (by omega)]; push_cast; ring
  have e2 : (4 : Int) - (((3 * w) % 4 : Nat) : Int) = ((4 - (3 * w) % 4 : Nat) : Int) := by
    omega
  rw [e1, toSizeT_natCast (by omega), e2, toSizeT_natCast (by omega),
    toInt32_eq (by omega) (by omega)]

theorem readAllocSize_natCast (w h : Nat) (hwh : w * h < 2147483648) :
    readAllocSize (w : Int) (h : Int) = 3 * (w * h) := by
  unfold readAllocSize
  simp only [sizeofPixel]
  have e0 : (w : Int) * (h : Int) = ((w * h : Nat) : Int) := by push_cast; ring
  have e1 : ((w * h : Nat) : Int) * ((3 : Nat) : Int) = ((3 * (w * h) : Nat) : Int) := by
    push_cast; ring
  rw [e0, toInt32_eq (by omega) (by omega), toSizeT_natCast (by omega), e1,
    toSizeT_natCast (by omega)]

theorem fseekCur_natCast (f : FILE) (p : Nat) : fseekCur f (p : Int) = ⟨f.data, f.pos + p⟩ := by
  unfold fseekCur
  rw [if_neg (by omega)]
  congr 1

/-- One row: the quantities of an iteration of the row loop when no `int`
overflows. -/
theorem readRow_offsets (w h y : Nat) (hwh : w * h < 2147483648) (hh : h < 2147483648)
    (hy : y < h) :
    sizeofPixel * (toInt32 ((y : Int) * (w : Int))).toNat = 3 * (y * w) ∧
    toSizeT ((sizeofPixel : Int) * (toSizeT (w : Int) : Int)) = 3 * w ∧
    toInt32 ((y : Int) + 1) = ((y + 1 : Nat) : Int) := by
  have hyw : y * w < 2147483648 := by
    have : y * w ≤ h * w := Nat.mul_le_mul_right w (by omega)
    rw [Nat.mul_comm h w] at this; omega
  have hw : w < 2147483648 := by
    have : w * 1 ≤ w * h := Nat.mul_le_mul_left w (by omega)
    omega
  have e0 : (y : Int) * (w : Int) = ((y * w : Nat) : Int) := by push_cast; ring
  have e1 : ((3 : Nat) : Int) * ((w : Nat) : Int) = ((3 * w : Nat) : Int) := by
    push_cast; ring
  refine ⟨?_, ?_, ?_⟩
  · rw [e0, toInt32_eq (by omega) (by omega), Int.toNat_natCast]; rfl
  · simp only [sizeofPixel]
    rw [toSizeT_natCast (by omega), e1, toSizeT_natCast (by omega)]
  · rw [toInt32_eq (by omega) (by omega)]; omega

/-- The row loop on complete pixel data: row `y` of the pixel memory receives
the `3 * w` bytes of the source at offset `54 + y * (3 * w + p)`. -/
theorem readRowsLoop_full (src : List Nat) (w h p : Nat) (hwh : w * h < 2147483648)
    (hh : h < 2147483648) (hsrc : 54 + h * (3 * w + p) ≤ src.length) :
    ∀ (n y : Nat) (done rest : List Nat), y + n ≤ h → done.length = 3 * (y * w) →
      rest.length = n * (3 * w) →
      (readRowsLoop (w : Int) (p : Int) n (y : Int) (done ++ rest)
          ⟨src, 54 + y * (3 * w + p)⟩).1
        = done ++ (List.range' y n).flatMap
            (fun y => (src.drop (54 + y * (3 * w + p))).take (3 * w)) := by
  intro n
  induction n with
  | zero =>
    intro y done rest _ _ hrest
    have : rest = [] := List.length_eq_zero.mp (by omega)
    simp [readRowsLoop, this]
  | succ n ih =>
    intro y done rest hy hdone hrest
    have hS : (y + 1) * (3 * w + p) ≤ h * (3 * w + p) :=
      Nat.mul_le_mul_right (3 * w + p) (by omega)
    have hS1 : (y + 1) * (3 * w + p) = y * (3 * w + p) + (3 * w + p) := by ring
    have hS2 : (n + 1) * (3 * w) = n * (3 * w) + 3 * w := by ring
    have hS3 : (y + 1) * w = y * w + w := by ring
    rw [hS1] at hS
    rw [hS2] at hrest
    have hdst : ((List.drop (3 * (y * w)) (done ++ rest)).take (3 * w)).length = 3 * w := by
      rw [List.drop_left' hdone, List.length_take]; omega
    obtain ⟨o1, o2, o3⟩ := readRow_offsets w h y hwh hh (by omega)
    simp only [readRowsLoop, o1, o2, o3]
    clear o1 o2 o3
    rw [fread_full _ _ (by simp only [hdst]; omega)]
    simp only [hdst, fseekCur_natCast]
    have e1 : List.take (3 * (y * w)) (done ++ rest) = done := List.take_left' hdone
    have e2 : List.drop (3 * (y * w) + 3 * w) (done ++ rest) = rest.drop (3 * w) := by
      rw [← List.drop_drop, List.drop_left' hdone]
    have e3 : 54 + y * (3 * w + p) + 3 * w + p = 54 + (y + 1) * (3 * w + p) := by
      rw [hS1]; omega
    rw [e1, e2, e3, ih (y + 1) _ _ (by omega)
      (by rw [List.length_append, List.length_take, List.length_drop, hdone, hS3]
          omega)
      (by rw [List.length_drop]; omega),
      List.range'_succ, List.flatMap_cons, List.append_assoc]

/-- The row loop never changes the size of the pixel memory, whatever the
source holds. -/
theorem readRowsLoop_length (w h : Nat) (p : Int) (hwh : w * h < 2147483648)
    (hh : h < 2147483648) :
    ∀ (n y : Nat) (buf : List Nat) (f : FILE), y + n ≤ h → 3 * (w * h) ≤ buf.length →
      (readRowsLoop (w : Int) p n (y : Int) buf f).1.length = buf.length := by
  intro n
  induction n with
  | zero => intro y buf f _ _; rfl
  | succ n ih =>
    intro y buf f hy hbuf
    have hS : (y + 1) * w ≤ h * w := Nat.mul_le_mul_right w (by omega)
    have hS3 : (y + 1) * w = y * w + w := by ring
    rw [hS3, Nat.mul_comm h w] at hS
    obtain ⟨o1, o2, o3⟩ := readRow_offsets w h y hwh hh (by omega)
    simp only [readRowsLoop, o1, o2, o3]
    clear o1 o2 o3
    have hl : (buf.take (3 * (y * w))
        ++ (fread ((buf.drop (3 * (y * w))).take (3 * w)) f).1
        ++ buf.drop (3 * (y * w) + 3 * w)).length = buf.length := by
      simp only [List.length_append, fread_length, List.length_take, List.length_drop]
      omega
    rw [ih (y + 1) _ _ (by omega) (by rw [hl]; exact hbuf), hl]

/-! ## Decoder: the pixel memory seen as `Pixel` values -/

theorem toPixels_length : ∀ (n : Nat) (b : List Nat), b.length = 3 * n →
    (toPixels b).length = n := by
  intro n
  induction n with
  | zero =>
    intro b hb
    have : b = [] := List.length_eq_zero.mp (by omega)
    subst this; rfl
  | succ n ih =>
    intro b hb
    match b, hb with
    | b0 :: b1 :: b2 :: rest, hb =>
      simp only [toPixels, List.length_cons]
      rw [ih rest (by simp only [List.length_cons] at hb; omega)]

theorem toPixels_getElem? : ∀ (x : Nat) (b : List Nat), 3 * x + 2 < b.length →
    (toPixels b)[x]? = some ⟨byteAt b (3 * x), byteAt b (3 * x + 1), byteAt b (3 * x + 2)⟩ := by
  intro x
  induction x with
  | zero =>
    intro b hb
    match b, hb with
    | b0 :: b1 :: b2 :: rest, _ => simp [toPixels, byteAt]
  | succ x ih =>
    intro b hb
    match b, hb with
    | b0 :: b1 :: b2 :: rest, hb =>
      simp only [List.length_cons] at hb
      simp only [toPixels, List.getElem?_cons_succ]
      rw [ih rest (by omega)]
      have e0 : 3 * (x + 1) = 3 * x + 3 := by omega
      have e1 : 3 * x + 3 + 1 = 3 * x + 1 + 3 := by omega
      have e2 : 3 * x + 3 + 2 = 3 * x + 2 + 3 := by omega
      rw [e0, e1, e2]
      rfl

/-! ## Binary32: the weighted sum stays below 256 -/

/-- The exponent found for `q` is 0 or leaves at least 24 significant bits. -/
theorem f32Exp_spec (fuel q : Nat) :
    f32Exp fuel q = 0 ∨ 2 ^ (f32Exp fuel q + 23) ≤ q := by
  induction fuel generalizing q with
  | zero => left; rfl
  | succ fuel ih =>
    unfold f32Exp
    split
    · left; rfl
    · rename_i hq
      right
      rcases ih (q / 2) with h0 | h1
      · rw [h0]; norm_num; omega
      · have : 2 ^ (f32Exp fuel (q / 2) + 1 + 23) = 2 * 2 ^ (f32Exp fuel (q / 2) + 23) := by
          ring
        rw [this]; omega

/-- Rounding moves a value up by at most one unit in the last place. -/
theorem f32Round_le (num den : Nat) : f32Round num den ≤ f32Bound (num / den) := by
  have hs := f32Exp_spec 256 (num / den)
  have hpos : 0 < 2 ^ f32Exp 256 (num / den) := Nat.pow_pos (by omega)
  have hm : num / (den * 2 ^ f32Exp 256 (num / den)) * 2 ^ f32Exp 256 (num / den)
      ≤ num / den := by
    rw [← Nat.div_div_eq_div_mul]
    exact Nat.div_mul_le_self _ _
  have h2 : 2 ^ f32Exp 256 (num / den) ≤ num / den / 8388608 + 1 := by
    rcases hs with h0 | h1
    · rw [h0]; omega
    · have : 2 ^ f32Exp 256 (num / den) * 8388608 ≤ num / den := by
        rw [Nat.pow_add] at h1; exact h1
      have := (Nat.le_div_iff_mul_le (by omega : 0 < 8388608)).mpr this
      omega
  have hub : (num / (den * 2 ^ f32Exp 256 (num / den)) + 1) * 2 ^ f32Exp 256 (num / den)
      ≤ f32Bound (num / den) := by
    unfold f32Bound
    rw [Nat.add_mul, Nat.one_mul]
    omega
  have hlb : num / (den * 2 ^ f32Exp 256 (num / den)) * 2 ^ f32Exp 256 (num / den)
      ≤ (num / (den * 2 ^ f32Exp 256 (num / den)) + 1) * 2 ^ f32Exp 256 (num / den) :=
    Nat.mul_le_mul_right _ (by omega)
  unfold f32Round
  simp only []
  split
  · omega
  · split
    · omega
    · exact hub

theorem f32Bound_mono {a b : Nat} (h : a ≤ b) : f32Bound a ≤ f32Bound b := by
  unfold f32Bound
  have := Nat.div_le_div_right (c := 8388608) h
  omega

theorem f32Mul_le (c a A : Nat) (h : a ≤ A) : f32Mul c a ≤ f32Bound (c * A / f32Unit) := by
  unfold f32Mul
  refine (f32Round_le _ _).trans (f32Bound_mono ?_)
  exact Nat.div_le_div_right (Nat.mul_le_mul_left c h)

theorem f32OfNat_le (n N : Nat) (h : n ≤ N) : f32OfNat n ≤ f32Bound (N * f32Unit) := by
  unfold f32OfNat
  refine (f32Round_le _ _).trans (f32Bound_mono ?_)
  rw [Nat.div_one]
  exact Nat.mul_le_mul_right _ h

theorem f32Add_le (a b A B : Nat) (ha : a ≤ A) (hb : b ≤ B) :
    f32Add a b ≤ f32Bound (A + B) := by
  unfold f32Add
  refine (f32Round_le _ _).trans (f32Bound_mono ?_)
  rw [Nat.div_one]
  omega

set_option maxRecDepth 100000 in
/-- The bound of the weighted sum of three samples of 255 is below 256. -/
theorem weightedSum_bound :
    f32Bound (f32Bound (f32Bound (c0299 * f32Bound (255 * f32Unit) / f32Unit)
        + f32Bound (c0587 * f32Bound (255 * f32Unit) / f32Unit))
      + f32Bound (c0114 * f32Bound (255 * f32Unit) / f32Unit)) < 256 * f32Unit := by
  decide

/-- The weighted sum of a pixel of bytes is below 256, so that its conversion
to `uint8_t` is its integer part. -/
theorem weightedSum_lt (p : Pixel) (hp : IsPixel p) : weightedSum p < 256 * f32Unit := by
  obtain ⟨hb, hg, hr⟩ := hp
  unfold weightedSum
  refine Nat.lt_of_le_of_lt (f32Add_le _ _ _ _ (f32Add_le _ _ _ _
    (f32Mul_le c0299 _ _ (f32OfNat_le p.red 255 (by omega)))
    (f32Mul_le c0587 _ _ (f32OfNat_le p.green 255 (by omega))))
    (f32Mul_le c0114 _ _ (f32OfNat_le p.blue 255 (by omega)))) weightedSum_bound

theorem luminance_eq_trunc (p : Pixel) (hp : IsPixel p) :
    luminance p = f32Trunc (weightedSum p) ∧ f32Trunc (weightedSum p) < 256 := by
  have h := weightedSum_lt p hp
  have ht : f32Trunc (weightedSum p) < 256 := by
    unfold f32Trunc
    exact (Nat.div_lt_iff_lt_mul (Nat.pow_pos (by omega))).mpr h
  exact ⟨toUInt8_natCast ht, ht⟩

/-! ## Transform: the conversion loop -/

/-- The conversion loop overwrites samples `i`, `i + 1`, ... of the grayscale
memory with the luminance of the pixels of the same index. -/
theorem grayLoop_eq (pixels : List Pixel) (N : Nat) (hN : N < 2147483648)
    (hpx : pixels.length = N) :
    ∀ (n i : Nat) (g : List Nat), i + n = N → g.length = N →
      grayLoop pixels n (i : Int) g = g.take i ++ (pixels.drop i).map luminance := by
  intro n
  induction n with
  | zero =>
    intro i g hi hg
    have e1 : g.take i = g := List.take_of_length_le (by omega)
    have e2 : pixels.drop i = [] := List.drop_of_length_le (by omega)
    simp [grayLoop, e1, e2]
  | succ n ih =>
    intro i g hi hg
    have e1 : toInt32 ((i : Int) + 1) = ((i + 1 : Nat) : Int) := by
      rw [toInt32_eq (by omega) (by omega)]; omega
    have hip : i < pixels.length := by omega
    have e2 : pixels.getD i ⟨0, 0, 0⟩ = pixels[i] := by
      simp [List.getD, List.getElem?_eq_getElem hip]
    have e3 : pixels.drop i = pixels[i] :: pixels.drop (i + 1) :=
      List.drop_eq_getElem_cons hip
    have hig : i < g.length := by omega
    have e4 : (g.set i (luminance pixels[i])).take (i + 1)
        = g.take i ++ [luminance pixels[i]] := by
      rw [List.take_succ, List.getElem?_set_self hig, List.set_take,
        List.set_eq_of_length_le (by rw [List.length_take]; omega)]
      rfl
    simp only [grayLoop, e1, Int.toNat_natCast, e2]
    rw [ih (i + 1) _ (by omega) (by rw [List.length_set]; exact hg), e4, e3, List.map_cons,
      List.append_assoc]
    rfl

/-- The Image after `convertToGrayscale`, for an Image with `w * h` pixels whose
grayscale buffer, if there is one, holds `w * h` samples. -/
theorem convertToGrayscale_eq (u : Uninit) (img : Image) (px : List Pixel) (w h : Nat)
    (hpx : img.pixels = some px) (hw : img.width = w) (hh : img.height = h)
    (hlen : px.length = w * h) (hg : ∀ g, img.grayscale = some g → g.length = w * h)
    (hfit : w * h < 2147483648) :
    convertToGrayscale u (some img)
      = some { img with grayscale := some (px.map luminance) } := by
  have e0 : (w : Int) * (h : Int) = ((w * h : Nat) : Int) := by push_cast; ring
  have hloop : ∀ g : List Nat, g.length = w * h →
      grayLoop px (w * h) 0 g = px.map luminance := by
    intro g hgl
    have := grayLoop_eq px (w * h) hfit hlen (w * h) 0 g (by omega) hgl
    simpa using this
  simp only [convertToGrayscale, hpx, hw, hh, e0]
  rw [toInt32_eq (by omega) (by omega), Int.toNat_natCast, toSizeT_natCast (by omega)]
  cases hgs : img.grayscale with
  | none => simp only []; rw [hloop _ (by simp)]
  | some g => simp only []; rw [hloop g (hg g hgs)]

/-! ## Encoder claims -/

theorem drop_take_eq_of_getElem? (l : List Nat) (a : Nat) (v : List Nat)
    (h : ∀ k, k < v.length → l[a + k]? = v[k]?) : (l.drop a).take v.length = v := by
  apply List.ext_getElem?
  intro k
  rw [List.getElem?_take]
  split
  · rename_i hk
    rw [List.getElem?_drop, h k hk]
  · rename_i hk
    rw [List.getElem?_eq_none (by omega)]

/-- For every Image with a grayscale buffer, entry `i` of the color table of
the written file (offset `54 + 4 * i`) is four bytes `i`: blue, green, red and
the reserved byte. -/
theorem saveGrayscaleBMP_colorTable_entry (img : Image) (g : List Nat)
    (hg : img.grayscale = some g) :
    ∃ out, saveGrayscaleBMP true (some img) = some out ∧
      ∀ i < 256, (out.drop (54 + 4 * i)).take 4 = [i, i, i, i] := by
  refine ⟨_, saveGrayscaleBMP_eq img g hg, ?_⟩
  intro i hi
  apply drop_take_eq_of_getElem? _ _ [i, i, i, i]
  intro k hk
  have hk4 : k < 4 := hk
  have e : 54 + 4 * i + k = ((saveHeader img).bytes ++ (saveInfoHeader img).bytes).length
      + (i * 4 + k) := by
    rw [List.length_append, headerBytes_length, infoHeaderBytes_length]; omega
  rw [List.append_assoc _ colorTable, e, List.getElem?_append_right (by omega),
    Nat.add_sub_cancel_left,
    List.getElem?_append_left (by rw [colorTable_length]; omega),
    colorTable_getElem? i k hi hk4]
  interval_cases k <;> rfl

/-- C1: at the 1x1 Image with grayscale `[7]` the filesize field that
`saveGrayscaleBMP` writes (offset 2) holds 58, while the file that it writes is
1082 bytes long: the 1024 bytes of the color table are not counted. -/
theorem saveGrayscaleBMP_filesize_omits_colorTable :
    ∃ out, saveGrayscaleBMP true (some image1x1) = some out ∧
      rd32 out 2 = 58 ∧ out.length = 1082 := by
  obtain ⟨out, h1, _, h2, _, _, h3⟩ :=
    saveGrayscaleBMP_layout image1x1 [7] 1 1 rfl rfl rfl rfl (by decide)
  exact ⟨out, h1, h2, h3⟩

/-- C4: for an Image with a grayscale buffer `g` of `w * h` samples, the
bytes that `saveGrayscaleBMP` writes after the two headers and the color table
(from offset 14 + 40 + 1024 on) are the `h` rows in index order, row `y` being
the `w` bytes `g[y*w .. y*w + w - 1]` followed by `(4 - w mod 4) mod 4` zero
bytes, and the length of a written row is a multiple of 4. -/
theorem saveGrayscaleBMP_pixel_rows (img : Image) (g : List Nat) (w h : Nat)
    (hg : img.grayscale = some g) (hw : img.width = w) (hh : img.height = h)
    (hlen : g.length = w * h) (hr : InIntRange img) :
    ∃ out, saveGrayscaleBMP true (some img) = some out ∧
      out.drop (14 + 40 + 1024) = (List.range h).flatMap (fun y =>
        (g.drop (y * w)).take w ++ List.replicate ((4 - w % 4) % 4) 0) ∧
      (∀ y < h, ((g.drop (y * w)).take w).length = w ∧
        ∀ x < w, ((g.drop (y * w)).take w)[x]? = g[y * w + x]?) ∧
      (∀ y < h, ((g.drop (y * w)).take w
        ++ List.replicate ((4 - w % 4) % 4) 0).length % 4 = 0) := by
  obtain ⟨out, h1, h2, _, _, _, _⟩ := saveGrayscaleBMP_layout img g w h hg hw hh hlen hr
  have hrow : ∀ y < h, ((g.drop (y * w)).take w).length = w := by
    intro y hy
    have : (y + 1) * w ≤ h * w := Nat.mul_le_mul_right w (by omega)
    rw [Nat.succ_mul, Nat.mul_comm h w] at this
    simp; omega
  refine ⟨out, h1, ?_, ?_, ?_⟩
  · rw [h2, List.drop_left' (headersTable_length _ _)]
    rfl
  · intro y hy
    refine ⟨hrow y hy, ?_⟩
    intro x hx
    rw [List.getElem?_take, if_pos hx, List.getElem?_drop]
  · intro y hy
    rw [List.length_append, hrow y hy, List.length_replicate]
    omega

/-- Witness of C4 at the 3x2 Image with grayscale `[1, 2, 3, 4, 5, 6]`. -/
theorem saveGrayscaleBMP_pixel_rows_witness :
    InIntRange image3x2 ∧
    ∃ out, saveGrayscaleBMP true (some image3x2) = some out ∧
      out.drop (14 + 40 + 1024) = (List.range 2).flatMap (fun y =>
        (([1, 2, 3, 4, 5, 6] : List Nat).drop (y * 3)).take 3
          ++ List.replicate ((4 - 3 % 4) % 4) 0) ∧
      (∀ y < 2, ((([1, 2, 3, 4, 5, 6] : List Nat).drop (y * 3)).take 3).length = 3 ∧
        ∀ x < 3, ((([1, 2, 3, 4, 5, 6] : List Nat).drop (y * 3)).take 3)[x]?
          = ([1, 2, 3, 4, 5, 6] : List Nat)[y * 3 + x]?) ∧
      (∀ y < 2, ((([1, 2, 3, 4, 5, 6] : List Nat).drop (y * 3)).take 3
        ++ List.replicate ((4 - 3 % 4) % 4) 0).length % 4 = 0) :=
  ⟨by decide,
    saveGrayscaleBMP_pixel_rows image3x2 [1, 2, 3, 4, 5, 6] 3 2 rfl rfl rfl rfl (by decide)⟩

/-- C8: at the 1x1 Image with grayscale `[7]` entry 1 of the color table that
`saveGrayscaleBMP` writes (offset 58) is the four bytes 1, 1, 1, 1: the
reserved byte holds the index, so it is not the case that every entry `i` is
`i, i, i, 0`. -/
theorem saveGrayscaleBMP_colorTable_reserved_byte :
    ∃ out, saveGrayscaleBMP true (some image1x1) = some out ∧
      (out.drop (54 + 4 * 1)).take 4 = [1, 1, 1, 1] ∧
      ¬ ∀ i < 256, (out.drop (54 + 4 * i)).take 4 = [i, i, i, 0] := by
  obtain ⟨out, h1, h2⟩ := saveGrayscaleBMP_colorTable_entry image1x1 [7] rfl
  refine ⟨out, h1, h2 1 (by omega), ?_⟩
  intro hc
  have a := hc 1 (by omega)
  rw [h2 1 (by omega)] at a
  exact absurd a (by decide)

/-- C9: at the 3x2 Image with grayscale `[1, 2, 3, 4, 5, 6]` the pixel-data
offset field that `saveGrayscaleBMP` writes (offset 10) holds 54, the offset
at which the color table begins, while the first pixel row begins at offset
1078. -/
theorem saveGrayscaleBMP_dataOffset_omits_colorTable :
    ∃ out, saveGrayscaleBMP true (some image3x2) = some out ∧
      rd32 out 10 = 54 ∧
      (out.drop 54).take 8 = [0, 0, 0, 0, 1, 1, 1, 1] ∧
      out.drop 1078 = [1, 2, 3, 0, 4, 5, 6, 0] := by
  obtain ⟨out, h1, h2, _, h3, _, _⟩ :=
    saveGrayscaleBMP_layout image3x2 [1, 2, 3, 4, 5, 6] 3 2 rfl rfl rfl rfl (by decide)
  obtain ⟨out2, h4, h5⟩ := saveGrayscaleBMP_colorTable_entry image3x2 [1, 2, 3, 4, 5, 6] rfl
  have e : out2 = out := Option.some.inj (h4.symm.trans h1)
  subst e
  refine ⟨out2, h1, h3, ?_, ?_⟩
  · have a := h5 0 (by omega)
    have b := h5 1 (by omega)
    have c : (out2.drop 54).take 8
        = (out2.drop 54).take 4 ++ ((out2.drop 54).drop 4).take 4 := by
      rw [← List.take_append_drop 4 ((out2.drop 54).take 8)]
      simp [List.take_take, List.drop_take]
    rw [c, List.drop_drop]
    simp only [Nat.mul_zero, Nat.add_zero, Nat.mul_one] at a b
    rw [a]
    simpa using b
  · rw [h2, List.drop_left' (headersTable_length _ _)]
    decide

/-- C10: for an Image with a grayscale buffer of `w * h` samples, the
imageSize field that `saveGrayscaleBMP` writes (offset 34) equals the number of
bytes written after the color table, which is `h * (w + (4 - w mod 4) mod 4)`. -/
theorem saveGrayscaleBMP_imageSize (img : Image) (g : List Nat) (w h : Nat)
    (hg : img.grayscale = some g) (hw : img.width = w) (hh : img.height = h)
    (hlen : g.length = w * h) (hr : InIntRange img) :
    ∃ out, saveGrayscaleBMP true (some img) = some out ∧
      rd32 out 34 = (out.drop (14 + 40 + 1024)).length ∧
      (out.drop (14 + 40 + 1024)).length = h * (w + (4 - w % 4) % 4) := by
  obtain ⟨out, h1, _, _, _, h2, h3⟩ := saveGrayscaleBMP_layout img g w h hg hw hh hlen hr
  refine ⟨out, h1, ?_, ?_⟩
  · rw [h2, List.length_drop, h3]; unfold pad8; omega
  · rw [List.length_drop, h3]; unfold pad8; omega

/-- Witness of C10 at the 3x2 Image. -/
theorem saveGrayscaleBMP_imageSize_witness :
    InIntRange image3x2 ∧
    ∃ out, saveGrayscaleBMP true (some image3x2) = some out ∧
      rd32 out 34 = (out.drop (14 + 40 + 1024)).length ∧
      (out.drop (14 + 40 + 1024)).length = 2 * (3 + (4 - 3 % 4) % 4) :=
  ⟨by decide,
    saveGrayscaleBMP_imageSize image3x2 [1, 2, 3, 4, 5, 6] 3 2 rfl rfl rfl rfl (by decide)⟩

/-! ## Decoder claims -/

theorem rd16_signature (src : List Nat)
    (hsig : src[0]? = some 0x42 ∧ src[1]? = some 0x4D) : rd16 src 0 = 0x4D42 := by
  unfold rd16
  rw [byteAt_eq_of_getElem? hsig.1, byteAt_eq_of_getElem? hsig.2]

theorem length_of_signature (src : List Nat)
    (hsig : src[0]? = some 0x42 ∧ src[1]? = some 0x4D) : 2 ≤ src.length := by
  have := hsig.2
  by_contra hc
  rw [List.getElem?_eq_none (by omega)] at this
  exact absurd this (by simp)

/-- The Image that `readBMP` returns for a complete source: the content of the
pixel memory is the rows of the source without their padding. -/
theorem readBMP_complete (u : Uninit) (src : List Nat) (w h : Nat)
    (hsig : src[0]? = some 0x42 ∧ src[1]? = some 0x4D)
    (hw : toInt32 (rd32 src 18) = w) (hh : toInt32 (rd32 src 22) = h)
    (hsrc : 54 + h * (3 * w + pad24 w) ≤ src.length) (hfit : w * h < 2147483648) :
    readBMP u (some src) = some ⟨w, h,
      some (toPixels ((List.range' 0 h).flatMap
        (fun y => (src.drop (54 + y * (3 * w + pad24 w))).take (3 * w)))), none⟩ := by
  have hw31 : w < 2147483648 := by
    have : toInt32 (rd32 src 18) < 2147483648 := by unfold toInt32; omega
    omega
  have hh31 : h < 2147483648 := by
    have : toInt32 (rd32 src 22) < 2147483648 := by unfold toInt32; omega
    omega
  rw [readBMP_of_headers u src (by omega) (rd16_signature src hsig), hw, hh,
    readPaddingSize_natCast w hw31, readAllocSize_natCast w h hfit, Int.toNat_natCast]
  have e : (3 : Nat) * (w * h) = h * (3 * w) := by ring
  have := readRowsLoop_full src w h (pad24 w) hfit hh31 hsrc h 0 []
    ((List.range (3 * (w * h))).map u.heap) (by omega) (by simp) (by simp [e])
  simp only [Nat.zero_mul, Nat.add_zero, List.nil_append, Nat.cast_zero] at this
  rw [this]

theorem sourceRow_length (src : List Nat) (w h p y : Nat)
    (hsrc : 54 + h * (3 * w + p) ≤ src.length) (hy : y < h) :
    ((src.drop (54 + y * (3 * w + p))).take (3 * w)).length = 3 * w := by
  have hS : (y + 1) * (3 * w + p) ≤ h * (3 * w + p) :=
    Nat.mul_le_mul_right (3 * w + p) (by omega)
  have hS1 : (y + 1) * (3 * w + p) = y * (3 * w + p) + (3 * w + p) := by ring
  rw [hS1] at hS
  rw [List.length_take, List.length_drop]
  omega

/-- Pixel `(x, y)` of the rows of a complete source. -/
theorem toPixels_rows_getElem? (src : List Nat) (w h p : Nat)
    (hsrc : 54 + h * (3 * w + p) ≤ src.length) (y x : Nat) (hy : y < h) (hx : x < w) :
    (toPixels ((List.range' 0 h).flatMap
        (fun y => (src.drop (54 + y * (3 * w + p))).take (3 * w))))[y * w + x]?
      = some ⟨byteAt src (54 + y * (3 * w + p) + 3 * x),
          byteAt src (54 + y * (3 * w + p) + 3 * x + 1),
          byteAt src (54 + y * (3 * w + p) + 3 * x + 2)⟩ := by
  have hL := length_flatMap_range'
    (fun y => (src.drop (54 + y * (3 * w + p))).take (3 * w)) (3 * w) h 0
    (fun i _ hi => sourceRow_length src w h p i hsrc (by omega))
  have hb : ∀ c, c < 3 →
      byteAt ((List.range' 0 h).flatMap
        (fun y => (src.drop (54 + y * (3 * w + p))).take (3 * w))) (3 * (y * w + x) + c)
      = byteAt src (54 + y * (3 * w + p) + 3 * x + c) := by
    intro c hc
    apply byteAt_congr
    have e : 3 * (y * w + x) + c = y * (3 * w) + (3 * x + c) := by ring
    rw [e, getElem?_flatMap_range' _ (3 * w) h 0 y (3 * x + c)
      (fun i _ hi => sourceRow_length src w h p i hsrc (by omega)) hy (by omega),
      List.getElem?_take, if_pos (by omega), List.getElem?_drop, Nat.zero_add]
    congr 1
    omega
  have hyw : (y + 1) * w ≤ h * w := Nat.mul_le_mul_right w (by omega)
  have e1 : (y + 1) * w = y * w + w := by ring
  have e2 : h * (3 * w) = 3 * (h * w) := by ring
  rw [e1] at hyw
  rw [toPixels_getElem? _ _ (by rw [hL, e2]; omega)]
  have h0 := hb 0 (by omega)
  rw [Nat.add_zero, Nat.add_zero] at h0
  rw [h0, hb 1 (by omega), hb 2 (by omega)]

/-- C2: for a source that starts with 0x42 0x4D, declares non-negative width
`w` (offset 18) and height `h` (offset 22) and holds at least
`54 + h * (3*w + p)` bytes, `p = (4 - (3*w) mod 4) mod 4`, `readBMP` returns an
Image of width `w`, height `h`, no grayscale buffer and `w * h` pixels, and the
pixel of index `y*w + x` has blue, green and red equal to the source bytes at
offsets `54 + y*(3*w + p) + 3*x`, `+ 1` and `+ 2`.  The pixel count is taken to
fit in an `int`. -/
theorem readBMP_pixels (u : Uninit) (src : List Nat) (w h : Nat)
    (hsig : src[0]? = some 0x42 ∧ src[1]? = some 0x4D)
    (hw : toInt32 (rd32 src 18) = w) (hh : toInt32 (rd32 src 22) = h)
    (hsrc : 54 + h * (3 * w + (4 - (3 * w) % 4) % 4) ≤ src.length)
    (hfit : w * h < 2147483648) :
    ∃ img px, readBMP u (some src) = some img ∧ img.width = w ∧ img.height = h ∧
      img.grayscale = none ∧ img.pixels = some px ∧ px.length = w * h ∧
      ∀ y < h, ∀ x < w,
        54 + y * (3 * w + (4 - (3 * w) % 4) % 4) + 3 * x + 2 < src.length ∧
        px[y * w + x]? = some
          ⟨byteAt src (54 + y * (3 * w + (4 - (3 * w) % 4) % 4) + 3 * x),
           byteAt src (54 + y * (3 * w + (4 - (3 * w) % 4) % 4) + 3 * x + 1),
           byteAt src (54 + y * (3 * w + (4 - (3 * w) % 4) % 4) + 3 * x + 2)⟩ := by
  have hc := readBMP_complete u src w h hsig hw hh hsrc hfit
  simp only [pad24] at hc
  refine ⟨_, _, hc, rfl, rfl, rfl, rfl, ?_, ?_⟩
  · apply toPixels_length
    rw [length_flatMap_range' _ (3 * w) h 0
      (fun i _ hi => sourceRow_length src w h _ i hsrc (by omega))]
    ring
  · intro y hy x hx
    refine ⟨?_, toPixels_rows_getElem? src w h _ hsrc y x hy hx⟩
    have hS : (y + 1) * (3 * w + (4 - (3 * w) % 4) % 4)
        ≤ h * (3 * w + (4 - (3 * w) % 4) % 4) := Nat.mul_le_mul_right _ (by omega)
    have hS1 : (y + 1) * (3 * w + (4 - (3 * w) % 4) % 4)
        = y * (3 * w + (4 - (3 * w) % 4) % 4) + (3 * w + (4 - (3 * w) % 4) % 4) := by ring
    rw [hS1] at hS
    omega

/-- Witness of C2 at a complete 2x2 file. -/
theorem readBMP_pixels_witness :
    (sampleBMP[0]? = some 0x42 ∧ sampleBMP[1]? = some 0x4D) ∧
    toInt32 (rd32 sampleBMP 18) = ((2 : Nat) : Int) ∧
    toInt32 (rd32 sampleBMP 22) = ((2 : Nat) : Int) ∧
    54 + 2 * (3 * 2 + (4 - (3 * 2) % 4) % 4) ≤ sampleBMP.length ∧
    ∃ img px, readBMP staleMemory (some sampleBMP) = some img ∧ img.width = ((2 : Nat) : Int) ∧
      img.height = ((2 : Nat) : Int) ∧
      img.grayscale = none ∧ img.pixels = some px ∧ px.length = 2 * 2 ∧
      ∀ y < 2, ∀ x < 2,
        54 + y * (3 * 2 + (4 - (3 * 2) % 4) % 4) + 3 * x + 2 < sampleBMP.length ∧
        px[y * 2 + x]? = some
          ⟨byteAt sampleBMP (54 + y * (3 * 2 + (4 - (3 * 2) % 4) % 4) + 3 * x),
           byteAt sampleBMP (54 + y * (3 * 2 + (4 - (3 * 2) % 4) % 4) + 3 * x + 1),
           byteAt sampleBMP (54 + y * (3 * 2 + (4 - (3 * 2) % 4) % 4) + 3 * x + 2)⟩ :=
  ⟨by decide, by decide, by decide, by decide,
    readBMP_pixels staleMemory sampleBMP 2 2 (by decide) (by decide) (by decide) (by decide)
      (by decide)⟩

/-- C6: a source of at least two bytes whose first two bytes are not
0x42 0x4D is refused: `readBMP` returns `NULL`, whatever the other bytes and
the indeterminate memory are. -/
theorem readBMP_rejects_signature (u : Uninit) (src : List Nat) (hb : IsBytes src)
    (h2 : 2 ≤ src.length) (hsig : ¬ (src[0]? = some 0x42 ∧ src[1]? = some 0x4D)) :
    readBMP u (some src) = none := by
  apply readBMP_none_of_signature u src h2
  match src, h2 with
  | a :: b :: rest, _ =>
    have ha : a < 256 := hb a (by simp)
    have hb : b < 256 := hb b (by simp)
    have e : rd16 (a :: b :: rest) 0 = a + 256 * b := rfl
    rw [e]
    intro hc
    apply hsig
    simp only [List.getElem?_cons_zero, List.getElem?_cons_succ, Option.some.injEq]
    omega

/-- Witness of C6 at a file that starts with "BN". -/
theorem readBMP_rejects_signature_witness :
    IsBytes notBMP ∧ 2 ≤ notBMP.length ∧
    ¬ (notBMP[0]? = some 0x42 ∧ notBMP[1]? = some 0x4D) ∧
    readBMP staleMemory (some notBMP) = none :=
  ⟨by decide, by decide, by decide,
    readBMP_rejects_signature staleMemory notBMP (by decide) (by decide) (by decide)⟩

set_option maxRecDepth 4000 in
/-- C7, as stated, fails: a 2x1 file that starts with "BM" and is cut after the
first pixel is not refused; `readBMP` returns an Image whose second pixel was
never read from the file and holds what the fresh allocation held. -/
theorem readBMP_truncated_returns_image :
    (truncatedBMP[0]? = some 0x42 ∧ truncatedBMP[1]? = some 0x4D) ∧
    toInt32 (rd32 truncatedBMP 18) = 2 ∧ toInt32 (rd32 truncatedBMP 22) = 1 ∧
    truncatedBMP.length < 54 + 1 * (3 * 2 + (4 - (3 * 2) % 4) % 4) ∧
    readBMP staleMemory (some truncatedBMP)
      = some ⟨2, 1, some [⟨1, 2, 3⟩, ⟨0xCD, 0xCD, 0xCD⟩], none⟩ := by
  decide

/-- C7, amended: a source that starts with the "BM" signature is never refused
for being truncated.  `readBMP` returns an Image; when the 54 header bytes are
present and declare non-negative width `w` and height `h` whose product fits in
an `int`, the Image has width `w`, height `h`, `w * h` pixels and no grayscale
buffer, however few bytes of pixel data follow. -/
theorem readBMP_accepts_truncated (u : Uninit) (src : List Nat) (w h : Nat)
    (hsig : src[0]? = some 0x42 ∧ src[1]? = some 0x4D) :
    (readBMP u (some src)).isSome = true ∧
    (54 ≤ src.length → toInt32 (rd32 src 18) = w → toInt32 (rd32 src 22) = h →
      w * h < 2147483648 →
      ∃ img px, readBMP u (some src) = some img ∧ img.width = w ∧ img.height = h ∧
        img.grayscale = none ∧ img.pixels = some px ∧ px.length = w * h) := by
  have h2 := length_of_signature src hsig
  have hs := rd16_signature src hsig
  refine ⟨readBMP_isSome_of_signature u src h2 hs, ?_⟩
  intro h54 hw hh hfit
  have hh31 : h < 2147483648 := by
    have : toInt32 (rd32 src 22) < 2147483648 := by unfold toInt32; omega
    omega
  refine ⟨_, _, readBMP_of_headers u src h54 hs, hw, hh, rfl, rfl, ?_⟩
  apply toPixels_length
  rw [hw, hh, readAllocSize_natCast w h hfit, Int.toNat_natCast]
  have := readRowsLoop_length w h (readPaddingSize w) hfit hh31 h 0
    ((List.range (3 * (w * h))).map u.heap) ⟨src, 54⟩ (by omega) (by simp)
  simp only [Nat.cast_zero] at this
  rw [this]
  simp

/-- Witness of amended C7 at the truncated 2x1 file. -/
theorem readBMP_accepts_truncated_witness :
    (truncatedBMP[0]? = some 0x42 ∧ truncatedBMP[1]? = some 0x4D) ∧
    (readBMP staleMemory (some truncatedBMP)).isSome = true ∧
    ∃ img px, readBMP staleMemory (some truncatedBMP) = some img ∧
      img.width = ((2 : Nat) : Int) ∧ img.height = ((1 : Nat) : Int) ∧
      img.grayscale = none ∧ img.pixels = some px ∧ px.length = 2 * 1 :=
  ⟨by decide, (readBMP_accepts_truncated staleMemory truncatedBMP 2 1 (by decide)).1,
    (readBMP_accepts_truncated staleMemory truncatedBMP 2 1 (by decide)).2
      (by decide) (by decide) (by decide) (by decide)⟩

/-! ## Transform and pipeline claims -/

set_option maxRecDepth 100000 in
/-- The five sample values of the luminance formula. -/
theorem luminance_samples :
    luminance { red := 255, green := 0, blue := 0 } = 76 ∧
    luminance { red := 0, green := 255, blue := 0 } = 149 ∧
    luminance { red := 0, green := 0, blue := 255 } = 29 ∧
    luminance { red := 255, green := 255, blue := 255 } = 255 ∧
    luminance { red := 0, green := 0, blue := 0 } = 0 := by
  refine ⟨?_, ?_, ?_, ?_, ?_⟩ <;> decide

/-- C3: for an Image with `w * h` pixels of byte samples, after
`convertToGrayscale` the grayscale buffer holds `w * h` samples and sample `i`
is the `float` value `0.299f * red + 0.587f * green + 0.114f * blue` of pixel
`i` truncated toward zero, a value below 256 that the conversion to `uint8_t`
leaves as it is; (red, green, blue) = (255, 0, 0) gives 76, (0, 255, 0) gives
149, (0, 0, 255) gives 29, (255, 255, 255) gives 255 and (0, 0, 0) gives 0. -/
theorem convertToGrayscale_luminance (u : Uninit) (img : Image) (px : List Pixel) (w h : Nat)
    (hpx : img.pixels = some px) (hw : img.width = w) (hh : img.height = h)
    (hlen : px.length = w * h) (hbytes : ∀ p ∈ px, IsPixel p)
    (hg : ∀ g, img.grayscale = some g → g.length = w * h)
    (hfit : w * h < 2147483648) :
    (∃ img' g, convertToGrayscale u (some img) = some img' ∧ img'.grayscale = some g ∧
      g.length = w * h ∧
      ∀ i < w * h, ∃ p, px[i]? = some p ∧
        g[i]? = some (f32Trunc (f32Add
          (f32Add (f32Mul c0299 (f32OfNat p.red)) (f32Mul c0587 (f32OfNat p.green)))
          (f32Mul c0114 (f32OfNat p.blue)))) ∧
        f32Trunc (f32Add
          (f32Add (f32Mul c0299 (f32OfNat p.red)) (f32Mul c0587 (f32OfNat p.green)))
          (f32Mul c0114 (f32OfNat p.blue))) < 256) ∧
    luminance { red := 255, green := 0, blue := 0 } = 76 ∧
    luminance { red := 0, green := 255, blue := 0 } = 149 ∧
    luminance { red := 0, green := 0, blue := 255 } = 29 ∧
    luminance { red := 255, green := 255, blue := 255 } = 255 ∧
    luminance { red := 0, green := 0, blue := 0 } = 0 := by
  refine ⟨⟨_, _, convertToGrayscale_eq u img px w h hpx hw hh hlen hg hfit, rfl, ?_, ?_⟩,
    luminance_samples⟩
  · rw [List.length_map, hlen]
  · intro i hi
    have hip : i < px.length := by omega
    have hp := luminance_eq_trunc px[i] (hbytes _ (List.getElem_mem hip))
    refine ⟨px[i], List.getElem?_eq_getElem hip, ?_, hp.2⟩
    rw [List.getElem?_map, List.getElem?_eq_getElem hip]
    exact congrArg some hp.1

/-- Witness of C3 at a decoded 2x1 Image. -/
theorem convertToGrayscale_luminance_witness :
    (∀ p ∈ ([{ red := 255, green := 0, blue := 0 }, { red := 0, green := 255, blue := 0 }]
      : List Pixel), IsPixel p) ∧
    (∀ g, decoded2x1.grayscale = some g → g.length = 2 * 1) ∧
    (∃ img' g, convertToGrayscale staleMemory (some decoded2x1) = some img' ∧
      img'.grayscale = some g ∧ g.length = 2 * 1 ∧
      ∀ i < 2 * 1, ∃ p,
        ([{ red := 255, green := 0, blue := 0 }, { red := 0, green := 255, blue := 0 }]
          : List Pixel)[i]? = some p ∧
        g[i]? = some (f32Trunc (f32Add
          (f32Add (f32Mul c0299 (f32OfNat p.red)) (f32Mul c0587 (f32OfNat p.green)))
          (f32Mul c0114 (f32OfNat p.blue)))) ∧
        f32Trunc (f32Add
          (f32Add (f32Mul c0299 (f32OfNat p.red)) (f32Mul c0587 (f32OfNat p.green)))
          (f32Mul c0114 (f32OfNat p.blue))) < 256) ∧
    luminance { red := 255, green := 0, blue := 0 } = 76 ∧
    luminance { red := 0, green := 255, blue := 0 } = 149 ∧
    luminance { red := 0, green := 0, blue := 255 } = 29 ∧
    luminance { red := 255, green := 255, blue := 255 } = 255 ∧
    luminance { red := 0, green := 0, blue := 0 } = 0 :=
  ⟨by decide, (by intro g hg; cases hg),
    convertToGrayscale_luminance staleMemory decoded2x1 _ 2 1 rfl rfl rfl rfl (by decide)
      (by intro g hg; cases hg) (by decide)⟩

/-- Byte `x` of row `y` of the written pixel rows is sample `y * w + x` of the
grayscale buffer. -/
theorem saveGrayscaleBMP_pixel_getElem? (img : Image) (g : List Nat) (w h : Nat)
    (hg : img.grayscale = some g) (hw : img.width = w) (hh : img.height = h)
    (hlen : g.length = w * h) (hr : InIntRange img) :
    ∃ out, saveGrayscaleBMP true (some img) = some out ∧
      out = (saveHeader img).bytes ++ (saveInfoHeader img).bytes
        ++ (colorTable ++ pixelRows w h (pad8 w) g) ∧
      ∀ y < h, ∀ x < w, (out.drop (14 + 40 + 1024))[y * (w + pad8 w) + x]? = g[y * w + x]? := by
  obtain ⟨out, h1, h2, _, _, _, _⟩ := saveGrayscaleBMP_layout img g w h hg hw hh hlen hr
  refine ⟨out, h1, by rw [h2, List.append_assoc], ?_⟩
  intro y hy x hx
  have hyw : (y + 1) * w ≤ h * w := Nat.mul_le_mul_right w (by omega)
  have e1 : (y + 1) * w = y * w + w := by ring
  rw [e1, Nat.mul_comm h w] at hyw
  rw [h2, List.drop_left' (headersTable_length _ _)]
  unfold pixelRows
  rw [List.range_eq_range', getElem?_flatMap_range' (paddedRow w (pad8 w) g) (w + pad8 w) h 0 y x
    (fun i _ hi => paddedRow_length w (pad8 w) g h i hlen (by omega)) hy (by omega),
    Nat.zero_add]
  unfold paddedRow
  rw [List.getElem?_append_left (by rw [List.length_take, List.length_drop]; omega),
    List.getElem?_take, if_pos hx, List.getElem?_drop]

/-- C5: for a complete 24-bit source of non-negative width `w` and height `h`,
`readBMP`, then `convertToGrayscale`, then `saveGrayscaleBMP` write a file whose
width and height fields are `w` and `h`, whose bitsPerPixel field is 8, and in
which the byte at position `y * (w + p8) + x` of the pixel rows,
`p8 = (4 - w mod 4) mod 4`, is the luminance of the source pixel of file row
`y` and column `x`: rows keep their order.  The sizes are taken to fit in an
`int`. -/
theorem pipeline_row_order (u : Uninit) (src : List Nat) (w h : Nat)
    (hsig : src[0]? = some 0x42 ∧ src[1]? = some 0x4D)
    (hw : toInt32 (rd32 src 18) = w) (hh : toInt32 (rd32 src 22) = h)
    (hsrc : 54 + h * (3 * w + (4 - (3 * w) % 4) % 4) ≤ src.length)
    (hfit : w * h + 3 * h + 54 < 2147483648) :
    ∃ out, saveGrayscaleBMP true (convertToGrayscale u (readBMP u (some src))) = some out ∧
      toInt32 (rd32 out 18) = w ∧ toInt32 (rd32 out 22) = h ∧ rd16 out 28 = 8 ∧
      ∀ y < h, ∀ x < w,
        (out.drop (14 + 40 + 1024))[y * (w + (4 - w % 4) % 4) + x]? = some (luminance
          ⟨byteAt src (54 + y * (3 * w + (4 - (3 * w) % 4) % 4) + 3 * x),
           byteAt src (54 + y * (3 * w + (4 - (3 * w) % 4) % 4) + 3 * x + 1),
           byteAt src (54 + y * (3 * w + (4 - (3 * w) % 4) % 4) + 3 * x + 2)⟩) := by
  have hw31 : w < 2147483648 := by
    have : toInt32 (rd32 src 18) < 2147483648 := by unfold toInt32; omega
    omega
  have hh31 : h < 2147483648 := by
    have : toInt32 (rd32 src 22) < 2147483648 := by unfold toInt32; omega
    omega
  have hwh : w * h < 2147483648 := by omega
  have ew : toInt32 (w : Int) = w := toInt32_eq (by omega) (by omega)
  have eh : toInt32 (h : Int) = h := toInt32_eq (by omega) (by omega)
  have hsrc' : 54 + h * (3 * w + pad24 w) ≤ src.length := hsrc
  have hrowlen := length_flatMap_range'
    (fun y => (src.drop (54 + y * (3 * w + pad24 w))).take (3 * w)) (3 * w) h 0
    (fun i _ hi => sourceRow_length src w h _ i hsrc' (by omega))
  have hpxlen : (toPixels ((List.range' 0 h).flatMap
      (fun y => (src.drop (54 + y * (3 * w + pad24 w))).take (3 * w)))).length = w * h := by
    apply toPixels_length
    rw [hrowlen]; ring
  rw [readBMP_complete u src w h hsig hw hh hsrc' hwh,
    convertToGrayscale_eq u _ _ w h rfl rfl rfl hpxlen (fun g hg => absurd hg (by simp)) hwh]
  have hr : InIntRange ⟨(w : Int), (h : Int), some (toPixels ((List.range' 0 h).flatMap
      (fun y => (src.drop (54 + y * (3 * w + pad24 w))).take (3 * w)))),
      some ((toPixels ((List.range' 0 h).flatMap
        (fun y => (src.drop (54 + y * (3 * w + pad24 w))).take (3 * w)))).map luminance)⟩ := by
    refine ⟨by simp only []; omega, by simp only []; omega, ?_⟩
    simp only []
    have e : ((w * h + 3 * h + 54 : Nat) : Int) < 2147483648 := by exact_mod_cast hfit
    push_cast at e
    exact e
  obtain ⟨out, h1, h2, h3⟩ := saveGrayscaleBMP_pixel_getElem? _ _ w h rfl rfl rfl
    (by rw [List.length_map, hpxlen]) hr
  refine ⟨out, h1, ?_, ?_, ?_, ?_⟩
  · rw [h2, (header_fields _ _ _).2.2.1]
    simp only [saveInfoHeader]
    rw [ew, toUInt32_natCast (by omega), ew]
  · rw [h2, (header_fields _ _ _).2.2.2.1]
    simp only [saveInfoHeader]
    rw [eh, toUInt32_natCast (by omega), eh]
  · rw [h2, (header_fields _ _ _).2.2.2.2.2.2]
    rfl
  · intro y hy x hx
    have h4 := h3 y hy x hx
    simp only [pad8] at h4
    rw [h4, List.getElem?_map, toPixels_rows_getElem? src w h _ hsrc' y x hy hx]
    rfl

/-- Witness of C5 at a complete 2x2 file. -/
theorem pipeline_row_order_witness :
    (sampleBMP[0]? = some 0x42 ∧ sampleBMP[1]? = some 0x4D) ∧
    toInt32 (rd32 sampleBMP 18) = ((2 : Nat) : Int) ∧
    toInt32 (rd32 sampleBMP 22) = ((2 : Nat) : Int) ∧
    54 + 2 * (3 * 2 + (4 - (3 * 2) % 4) % 4) ≤ sampleBMP.length ∧
    ∃ out, saveGrayscaleBMP true
        (convertToGrayscale staleMemory (readBMP staleMemory (some sampleBMP))) = some out ∧
      toInt32 (rd32 out 18) = ((2 : Nat) : Int) ∧ toInt32 (rd32 out 22) = ((2 : Nat) : Int) ∧
      rd16 out 28 = 8 ∧
      ∀ y < 2, ∀ x < 2,
        (out.drop (14 + 40 + 1024))[y * (2 + (4 - 2 % 4) % 4) + x]? = some (luminance
          ⟨byteAt sampleBMP (54 + y * (3 * 2 + (4 - (3 * 2) % 4) % 4) + 3 * x),
           byteAt sampleBMP (54 + y * (3 * 2 + (4 - (3 * 2) % 4) % 4) + 3 * x + 1),
           byteAt sampleBMP (54 + y * (3 * 2 + (4 - (3 * 2) % 4) % 4) + 3 * x + 2)⟩) :=
  ⟨by decide, by decide, by decide, by decide,
    pipeline_row_order staleMemory sampleBMP 2 2 (by decide) (by decide) (by decide)
      (by decide) (by decide)⟩

/-! ## Padding law -/

/-- The remainder of C for the divisor 4 lies strictly between -4 and 4. -/
theorem tmod_four_range (a : Int) : -4 < a.tmod 4 ∧ a.tmod 4 < 4 := by
  cases a with
  | ofNat n =>
    have e : (Int.ofNat n).tmod 4 = ((n % 4 : Nat) : Int) := rfl
    rw [e]; omega
  | negSucc n =>
    have e : (Int.negSucc n).tmod 4 = -(((n + 1) % 4 : Nat) : Int) := rfl
    rw [e]; omega

/-- The padding of the encoder lies in 0..3 for every width, negative widths
included. -/
theorem savePaddingSize_range (width : Int) :
    0 ≤ savePaddingSize width ∧ savePaddingSize width ≤ 3 := by
  obtain ⟨h1, h2⟩ := tmod_four_range width
  have e1 : toInt32 (4 - width.tmod 4) = 4 - width.tmod 4 :=
    toInt32_eq (by omega) (by omega)
  have h3 : 0 ≤ (4 - width.tmod 4).tmod 4 := Int.tmod_nonneg _ (by omega)
  have h4 : (4 - width.tmod 4).tmod 4 < 4 := Int.tmod_lt_of_pos _ (by omega)
  have e2 : toInt32 ((4 - width.tmod 4).tmod 4) = (4 - width.tmod 4).tmod 4 :=
    toInt32_eq (by omega) (by omega)
  unfold savePaddingSize
  rw [e1, e2]
  exact ⟨h3, by omega⟩

/-- C11, as stated, fails: for the 24-bit width 5 the padding that `readBMP`
computes is 1 (a row of 15 bytes is padded to 16), not 3. -/
theorem readPaddingSize_five : readPaddingSize 5 = 1 ∧ readPaddingSize 5 ≠ 3 := by
  decide

/-- C11, amended: for every non-negative `int` width `w` the padding of
`readBMP` is `(4 - (3*w) mod 4) mod 4` and the padding of `saveGrayscaleBMP` is
`(4 - w mod 4) mod 4`; each is the smallest number of bytes that makes the row
length (`3*w`, respectively `w`, plus padding) a multiple of 4.  The 24-bit
width 5 gives 1 and width 4 gives 0, the 8-bit width 3 gives 1 and width 4
gives 0. -/
theorem padding_law (w : Nat) (hw : w < 2147483648) :
    readPaddingSize (w : Int) = (((4 - (3 * w) % 4) % 4 : Nat) : Int) ∧
    savePaddingSize (w : Int) = (((4 - w % 4) % 4 : Nat) : Int) ∧
    (3 * w + (4 - (3 * w) % 4) % 4) % 4 = 0 ∧
    (∀ q : Nat, (3 * w + q) % 4 = 0 → (4 - (3 * w) % 4) % 4 ≤ q) ∧
    (w + (4 - w % 4) % 4) % 4 = 0 ∧
    (∀ q : Nat, (w + q) % 4 = 0 → (4 - w % 4) % 4 ≤ q) ∧
    readPaddingSize 5 = 1 ∧ readPaddingSize 4 = 0 ∧
    savePaddingSize 3 = 1 ∧ savePaddingSize 4 = 0 := by
  refine ⟨readPaddingSize_natCast w hw, savePaddingSize_natCast w, by omega,
    fun q hq => by omega, by omega, fun q hq => by omega, by decide, by decide, by decide,
    by decide⟩

/-- Witness of amended C11 at width 5. -/
theorem padding_law_witness :
    5 < 2147483648 ∧
    readPaddingSize ((5 : Nat) : Int) = (((4 - (3 * 5) % 4) % 4 : Nat) : Int) ∧
    savePaddingSize ((5 : Nat) : Int) = (((4 - 5 % 4) % 4 : Nat) : Int) ∧
    (3 * 5 + (4 - (3 * 5) % 4) % 4) % 4 = 0 ∧
    (∀ q : Nat, (3 * 5 + q) % 4 = 0 → (4 - (3 * 5) % 4) % 4 ≤ q) ∧
    (5 + (4 - 5 % 4) % 4) % 4 = 0 ∧
    (∀ q : Nat, (5 + q) % 4 = 0 → (4 - 5 % 4) % 4 ≤ q) ∧
    readPaddingSize 5 = 1 ∧ readPaddingSize 4 = 0 ∧
    savePaddingSize 3 = 1 ∧ savePaddingSize 4 = 0 :=
  ⟨by decide, padding_law 5 (by decide)⟩

/-! ## The headers of the written file -/

theorem toUInt32_toInt32 (n : Int) : toUInt32 (toInt32 n) = toUInt32 n := by
  unfold toUInt32 toInt32; omega

theorem toInt32_toUInt32 (n : Int) (h1 : -2147483648 ≤ n) (h2 : n < 2147483648) :
    toInt32 (toUInt32 n) = n := by
  unfold toUInt32 toInt32; omega

/-- The first 54 bytes that `saveGrayscaleBMP` writes, for every Image with a
grayscale buffer, in terms of the values that the code computes: the bytes
0x42 0x4D, the value of `fileSize`, two zero 16-bit fields, the value 54, then
headerSize = 40, the width and the height of the Image as signed 32-bit
fields, planes = 1, bitsPerPixel = 8, compression = 0, the value of
`dataSize`, two zero pixels-per-meter fields, colorsUsed = 256 and
colorsImp = 256. -/
theorem saveGrayscaleBMP_header_bytes (img : Image) (g : List Nat)
    (hg : img.grayscale = some g)
    (hw : -2147483648 ≤ img.width ∧ img.width < 2147483648)
    (hh : -2147483648 ≤ img.height ∧ img.height < 2147483648) :
    ∃ out, saveGrayscaleBMP true (some img) = some out ∧
      out.take 54 = [0x42, 0x4D] ++ le32 (toUInt32 (saveFileSize img)) ++ le16 0 ++ le16 0
        ++ le32 54
        ++ le32 40 ++ le32 (toUInt32 img.width) ++ le32 (toUInt32 img.height)
        ++ le16 1 ++ le16 8 ++ le32 0 ++ le32 (toUInt32 (saveDataSize img))
        ++ le32 0 ++ le32 0 ++ le32 256 ++ le32 256 ∧
      toInt32 (rd32 out 18) = img.width ∧ toInt32 (rd32 out 22) = img.height := by
  refine ⟨_, saveGrayscaleBMP_eq img g hg, ?_, ?_, ?_⟩
  · have hl : ((saveHeader img).bytes ++ (saveInfoHeader img).bytes).length = 54 := rfl
    rw [List.append_assoc _ colorTable, List.take_left' hl]
    simp only [BMPHeader.bytes, BMPInfoHeader.bytes, saveHeader, saveInfoHeader,
      toUInt32_toInt32]
    rfl
  · rw [List.append_assoc _ colorTable, (header_fields _ _ _).2.2.1]
    simp only [saveInfoHeader]
    rw [toUInt32_toInt32, toInt32_toUInt32 _ hw.1 hw.2]
  · rw [List.append_assoc _ colorTable, (header_fields _ _ _).2.2.2.1]
    simp only [saveInfoHeader]
    rw [toUInt32_toInt32, toInt32_toUInt32 _ hh.1 hh.2]

/-- C12: at the 3x2 Image with grayscale `[1, 2, 3, 4, 5, 6]` the first 54 bytes
that `saveGrayscaleBMP` writes have the layout and the constant fields that the
claim lists (signature, zero reserved fields, headerSize 40, width 3, height 2,
planes 1, bitsPerPixel 8, compression 0, image data size 8, zero
pixels-per-meter fields, colorsUsed 256, colorsImp 256), but the file size
field holds 62 while the written file is 1086 bytes long, and the pixel-data
offset field holds 54 while the pixel rows start at offset 1078. -/
theorem saveGrayscaleBMP_headers_omit_colorTable :
    ∃ out, saveGrayscaleBMP true (some image3x2) = some out ∧
      out.take 54 =
        [0x42, 0x4D, 62, 0, 0, 0, 0, 0, 0, 0, 54, 0, 0, 0,
         40, 0, 0, 0, 3, 0, 0, 0, 2, 0, 0, 0, 1, 0, 8, 0, 0, 0, 0, 0, 8, 0, 0, 0,
         0, 0, 0, 0, 0, 0, 0, 0, 0, 1, 0, 0, 0, 1, 0, 0] ∧
      rd32 out 2 = 62 ∧ out.length = 1086 ∧
      rd32 out 10 = 54 ∧ out.drop 1078 = [1, 2, 3, 0, 4, 5, 6, 0] ∧
      rd32 out 34 = 8 ∧ (out.drop 1078).length = 8 := by
  obtain ⟨out, h1, h2, h3, h4, h5, h6⟩ :=
    saveGrayscaleBMP_layout image3x2 [1, 2, 3, 4, 5, 6] 3 2 rfl rfl rfl rfl (by decide)
  obtain ⟨out2, k1, k2, _, _⟩ :=
    saveGrayscaleBMP_header_bytes image3x2 [1, 2, 3, 4, 5, 6] rfl (by decide) (by decide)
  have e : out2 = out := Option.some.inj (k1.symm.trans h1)
  subst e
  have hrows : out2.drop 1078 = [1, 2, 3, 0, 4, 5, 6, 0] := by
    rw [h2, List.drop_left' (headersTable_length _ _)]
    decide
  refine ⟨out2, h1, ?_, h3, h6, h4, hrows, h5, ?_⟩
  · rw [k2]; decide
  · rw [hrows]; rfl

/-! ## Transform and encoder: idempotence and missing buffers -/

/-- C13: for an Image with `w * h` pixels, `convertToGrayscale` run on its own
result gives that result again, and the grayscale buffer after the call is the
luminance of the pixels: every other Image that has these pixels, width and
height gets the same grayscale buffer, whatever its grayscale buffer held
before and whatever the indeterminate memory holds. -/
theorem convertToGrayscale_idempotent (u u2 u3 : Uninit) (img other : Image)
    (px : List Pixel) (w h : Nat)
    (hpx : img.pixels = some px) (hw : img.width = w) (hh : img.height = h)
    (hlen : px.length = w * h) (hg : ∀ g, img.grayscale = some g → g.length = w * h)
    (hfit : w * h < 2147483648)
    (opx : other.pixels = some px) (ow : other.width = w) (oh : other.height = h)
    (og : ∀ g, other.grayscale = some g → g.length = w * h) :
    ∃ img1, convertToGrayscale u (some img) = some img1 ∧
      convertToGrayscale u2 (convertToGrayscale u (some img)) = some img1 ∧
      img1.grayscale = some (px.map luminance) ∧
      ∃ img2, convertToGrayscale u3 (some other) = some img2 ∧
        img2.grayscale = img1.grayscale := by
  have h1 := convertToGrayscale_eq u img px w h hpx hw hh hlen hg hfit
  refine ⟨_, h1, ?_, rfl, ?_⟩
  · have h2 := convertToGrayscale_eq u2
      { img with grayscale := some (px.map luminance) } px w h hpx hw hh hlen
      (fun g hgs => by
        have e : px.map luminance = g := Option.some.inj hgs
        rw [← e, List.length_map, hlen]) hfit
    rw [h1]
    exact h2
  · exact ⟨_, convertToGrayscale_eq u3 other px w h opx ow oh hlen og hfit, rfl⟩

/-- Witness of C13 at the decoded 2x1 Image, compared with the same Image
holding stale grayscale samples. -/
theorem convertToGrayscale_idempotent_witness :
    (∀ g, decoded2x1.grayscale = some g → g.length = 2 * 1) ∧
    (∀ g, regraded2x1.grayscale = some g → g.length = 2 * 1) ∧
    ∃ img1, convertToGrayscale staleMemory (some decoded2x1) = some img1 ∧
      convertToGrayscale staleMemory (convertToGrayscale staleMemory (some decoded2x1))
        = some img1 ∧
      img1.grayscale = some (([{ red := 255, green := 0, blue := 0 },
        { red := 0, green := 255, blue := 0 }] : List Pixel).map luminance) ∧
      ∃ img2, convertToGrayscale staleMemory (some regraded2x1) = some img2 ∧
        img2.grayscale = img1.grayscale :=
  ⟨(by intro g hg; cases hg), (by intro g hg; cases hg; rfl),
    convertToGrayscale_idempotent staleMemory staleMemory staleMemory decoded2x1 regraded2x1
      _ 2 1 rfl rfl rfl rfl (by intro g hg; cases hg) (by decide) rfl rfl rfl
      (by intro g hg; cases hg; rfl)⟩

/-- C14, as stated, fails: `convertToGrayscale` on an Image without pixel buffer
returns normally and leaves the Image as it was. -/
theorem convertToGrayscale_without_pixels_returns :
    emptyImage.pixels = none ∧
    convertToGrayscale staleMemory (some emptyImage) = some emptyImage := by
  decide

/-- C14, amended: `convertToGrayscale` on an Image that has no pixel buffer is a
no-op: it returns with the Image unchanged, whatever the other fields and the
indeterminate memory hold; the function is `void` and reports nothing. -/
theorem convertToGrayscale_without_pixels (u : Uninit) (img : Image)
    (hpx : img.pixels = none) : convertToGrayscale u (some img) = some img := by
  simp only [convertToGrayscale, hpx]

/-- Witness of amended C14 at an Image that has a grayscale buffer and no
pixel buffer. -/
theorem convertToGrayscale_without_pixels_witness :
    image3x2.pixels = none ∧
    convertToGrayscale staleMemory (some image3x2) = some image3x2 :=
  ⟨rfl, convertToGrayscale_without_pixels staleMemory image3x2 rfl⟩

/-- C15, as stated, fails: `saveGrayscaleBMP` on an Image without grayscale
buffer writes nothing and returns, with the same outcome as when the sink
cannot be opened. -/
theorem saveGrayscaleBMP_without_grayscale_returns :
    decoded2x1.grayscale = none ∧
    saveGrayscaleBMP true (some decoded2x1) = none ∧
    saveGrayscaleBMP true (some decoded2x1) = saveGrayscaleBMP false (some image1x1) := by
  decide

/-- C15, amended: `saveGrayscaleBMP` on an Image that has no grayscale buffer
skips the write: it returns without opening the sink or writing a byte, whether
or not the sink could be opened; the function is `void` and reports nothing. -/
theorem saveGrayscaleBMP_without_grayscale (opens : Bool) (img : Image)
    (hg : img.grayscale = none) : saveGrayscaleBMP opens (some img) = none := by
  simp only [saveGrayscaleBMP, hg]

/-- Witness of amended C15 at an Image without buffers. -/
theorem saveGrayscaleBMP_without_grayscale_witness :
    emptyImage.grayscale = none ∧ saveGrayscaleBMP true (some emptyImage) = none :=
  ⟨rfl, saveGrayscaleBMP_without_grayscale true emptyImage rfl⟩

/-! ## Decoder: the bitsPerPixel field is not read -/

/-- The padding of the decoder is a number in 0..3. -/
theorem readPaddingSize_natCast_any (width : Int) :
    ∃ p : Nat, p ≤ 3 ∧ readPaddingSize width = (p : Int) := by
  refine ⟨toSizeT (4 - ((toSizeT ((toSizeT width : Int) * sizeofPixel) % 4 : Nat) : Int)) % 4,
    by omega, ?_⟩
  unfold readPaddingSize
  rw [toInt32_eq (by omega) (by omega)]

/-- The row loop depends on the stream only through the bytes from the read
position on. -/
theorem readRowsLoop_congr (width : Int) (p : Nat) (d d' : List Nat) :
    ∀ (n : Nat) (y : Int) (buf : List Nat) (pos : Nat), d.drop pos = d'.drop pos →
      (readRowsLoop width (p : Int) n y buf ⟨d, pos⟩).1
        = (readRowsLoop width (p : Int) n y buf ⟨d', pos⟩).1 := by
  intro n
  induction n with
  | zero => intro y buf pos _; rfl
  | succ n ih =>
    intro y buf pos hd
    have e : ∀ (l : List Nat) (k : Nat), l.drop (pos + k + p) = ((l.drop pos).drop k).drop p := by
      intro l k
      rw [List.drop_drop, List.drop_drop, Nat.add_assoc]
    simp only [readRowsLoop, fread, fseekCur_natCast, hd]
    apply ih
    rw [e, e, hd]

theorem byteAt_set_ne (l : List Nat) (i j v : Nat) (h : i ≠ j) :
    byteAt (l.set i v) j = byteAt l j := by
  apply byteAt_congr
  exact List.getElem?_set_ne h

/-- The result of `readBMP` does not depend on the two bytes of the bitsPerPixel
field (offsets 28 and 29). -/
theorem readBMP_set_bitsPerPixel (u : Uninit) (src : List Nat) (a b : Nat)
    (hsig : src[0]? = some 0x42 ∧ src[1]? = some 0x4D) (h54 : 54 ≤ src.length) :
    readBMP u (some ((src.set 28 a).set 29 b)) = readBMP u (some src) := by
  have hs := rd16_signature src hsig
  have hb : ∀ j, j ≠ 28 → j ≠ 29 → byteAt ((src.set 28 a).set 29 b) j = byteAt src j := by
    intro j h1 h2
    rw [byteAt_set_ne _ _ _ _ (Ne.symm h2), byteAt_set_ne _ _ _ _ (Ne.symm h1)]
  have hs2 : rd16 ((src.set 28 a).set 29 b) 0 = 0x4D42 := by
    rw [← hs]; unfold rd16
    rw [hb 0 (by omega) (by omega), hb (0 + 1) (by omega) (by omega)]
  have ew : rd32 ((src.set 28 a).set 29 b) 18 = rd32 src 18 := by
    unfold rd32
    rw [hb 18 (by omega) (by omega), hb (18 + 1) (by omega) (by omega),
      hb (18 + 2) (by omega) (by omega), hb (18 + 3) (by omega) (by omega)]
  have eh : rd32 ((src.set 28 a).set 29 b) 22 = rd32 src 22 := by
    unfold rd32
    rw [hb 22 (by omega) (by omega), hb (22 + 1) (by omega) (by omega),
      hb (22 + 2) (by omega) (by omega), hb (22 + 3) (by omega) (by omega)]
  have hd : ((src.set 28 a).set 29 b).drop 54 = src.drop 54 := by
    rw [List.drop_set_of_lt _ _ (by omega), List.drop_set_of_lt _ _ (by omega)]
  obtain ⟨p, _, hp⟩ := readPaddingSize_natCast_any (toInt32 (rd32 src 18))
  rw [readBMP_of_headers u _ (by simp only [List.length_set]; exact h54) hs2,
    readBMP_of_headers u src h54 hs, ew, eh, hp,
    readRowsLoop_congr _ p _ src _ _ _ 54 hd]

set_option maxRecDepth 4000 in
/-- C16, as stated, fails: a complete 2x2 file with a valid signature whose
bitsPerPixel field declares 8 is not refused; `readBMP` returns an Image and
reads the pixel data as 3-byte triples. -/
theorem readBMP_accepts_8bpp :
    (sampleBMP8[0]? = some 0x42 ∧ sampleBMP8[1]? = some 0x4D) ∧
    54 ≤ sampleBMP8.length ∧ rd16 sampleBMP8 28 = 8 ∧
    readBMP staleMemory (some sampleBMP8)
      = some ⟨2, 2, some [⟨1, 2, 3⟩, ⟨4, 5, 6⟩, ⟨7, 8, 9⟩, ⟨10, 11, 12⟩], none⟩ := by
  decide

/-- C16, amended: `readBMP` never reads the bitsPerPixel field.  For every source
with the "BM" signature and the 54 header bytes, whatever two bytes `a`, `b`
stand in that field (offsets 28 and 29), the result is the same as for the
source itself and it is an Image; when the source declares non-negative
width `w` and height `h` and holds `54 + h * (3*w + p)` bytes, the pixels of
that Image are the 3-byte triples of the pixel data. -/
theorem readBMP_ignores_bitsPerPixel (u : Uninit) (src : List Nat) (w h a b : Nat)
    (hsig : src[0]? = some 0x42 ∧ src[1]? = some 0x4D) (h54 : 54 ≤ src.length) :
    readBMP u (some ((src.set 28 a).set 29 b)) = readBMP u (some src) ∧
    (readBMP u (some ((src.set 28 a).set 29 b))).isSome = true ∧
    (toInt32 (rd32 src 18) = w → toInt32 (rd32 src 22) = h →
      54 + h * (3 * w + (4 - (3 * w) % 4) % 4) ≤ src.length → w * h < 2147483648 →
      ∃ img px, readBMP u (some ((src.set 28 a).set 29 b)) = some img ∧ img.width = w ∧
        img.height = h ∧ img.pixels = some px ∧ px.length = w * h ∧
        ∀ y < h, ∀ x < w, px[y * w + x]? = some
          ⟨byteAt src (54 + y * (3 * w + (4 - (3 * w) % 4) % 4) + 3 * x),
           byteAt src (54 + y * (3 * w + (4 - (3 * w) % 4) % 4) + 3 * x + 1),
           byteAt src (54 + y * (3 * w + (4 - (3 * w) % 4) % 4) + 3 * x + 2)⟩) := by
  have he := readBMP_set_bitsPerPixel u src a b hsig h54
  refine ⟨he, ?_, ?_⟩
  · rw [he]
    exact readBMP_isSome_of_signature u src (length_of_signature src hsig)
      (rd16_signature src hsig)
  · intro hw hh hsrc hfit
    have hc := readBMP_complete u src w h hsig hw hh hsrc hfit
    simp only [pad24] at hc
    rw [he]
    refine ⟨_, _, hc, rfl, rfl, rfl, ?_, ?_⟩
    · apply toPixels_length
      rw [length_flatMap_range' _ (3 * w) h 0
        (fun i _ hi => sourceRow_length src w h _ i hsrc (by omega))]
      ring
    · intro y hy x hx
      exact toPixels_rows_getElem? src w h _ hsrc y x hy hx

/-- Witness of amended C16 at the complete 2x2 file with the field set to 8. -/
theorem readBMP_ignores_bitsPerPixel_witness :
    (sampleBMP[0]? = some 0x42 ∧ sampleBMP[1]? = some 0x4D) ∧ 54 ≤ sampleBMP.length ∧
    rd16 ((sampleBMP.set 28 8).set 29 0) 28 = 8 ∧
    readBMP staleMemory (some ((sampleBMP.set 28 8).set 29 0))
      = readBMP staleMemory (some sampleBMP) ∧
    (readBMP staleMemory (some ((sampleBMP.set 28 8).set 29 0))).isSome = true ∧
    ∃ img px, readBMP staleMemory (some ((sampleBMP.set 28 8).set 29 0)) = some img ∧
      img.width = ((2 : Nat) : Int) ∧ img.height = ((2 : Nat) : Int) ∧
      img.pixels = some px ∧ px.length = 2 * 2 ∧
      ∀ y < 2, ∀ x < 2, px[y * 2 + x]? = some
        ⟨byteAt sampleBMP (54 + y * (3 * 2 + (4 - (3 * 2) % 4) % 4) + 3 * x),
         byteAt sampleBMP (54 + y * (3 * 2 + (4 - (3 * 2) % 4) % 4) + 3 * x + 1),
         byteAt sampleBMP (54 + y * (3 * 2 + (4 - (3 * 2) % 4) % 4) + 3 * x + 2)⟩ :=
  ⟨by decide, by decide, by decide,
    (readBMP_ignores_bitsPerPixel staleMemory sampleBMP 2 2 8 0 (by decide) (by decide)).1,
    (readBMP_ignores_bitsPerPixel staleMemory sampleBMP 2 2 8 0 (by decide) (by decide)).2.1,
    (readBMP_ignores_bitsPerPixel staleMemory sampleBMP 2 2 8 0 (by decide) (by decide)).2.2
      (by decide) (by decide) (by decide) (by decide)⟩

/-! ## The length invariant of the Image -/

/-- The Image that `readBMP` returns for a source with the signature and the 54
header bytes has the declared size and that many pixels. -/
theorem readBMP_shape (u : Uninit) (src : List Nat) (w h : Nat)
    (hsig : src[0]? = some 0x42 ∧ src[1]? = some 0x4D) (h54 : 54 ≤ src.length)
    (hw : toInt32 (rd32 src 18) = w) (hh : toInt32 (rd32 src 22) = h)
    (hfit : w * h < 2147483648) :
    ∃ img px, readBMP u (some src) = some img ∧ img.width = w ∧ img.height = h ∧
      img.grayscale = none ∧ img.pixels = some px ∧ px.length = w * h := by
  have hs := rd16_signature src hsig
  have hh31 : h < 2147483648 := by
    have : toInt32 (rd32 src 22) < 2147483648 := by unfold toInt32; omega
    omega
  refine ⟨_, _, readBMP_of_headers u src h54 hs, hw, hh, rfl, rfl, ?_⟩
  apply toPixels_length
  rw [hw, hh, readAllocSize_natCast w h hfit, Int.toNat_natCast]
  have := readRowsLoop_length w h (readPaddingSize w) hfit hh31 h 0
    ((List.range (3 * (w * h))).map u.heap) ⟨src, 54⟩ (by omega) (by simp)
  simp only [Nat.cast_zero] at this
  rw [this]
  simp

/-- C17: the Image that `readBMP` returns for a source of non-negative width `w`
and height `h` has exactly `w * h` pixels; `convertToGrayscale` on it, and on
every Image with `w * h` pixels whether its grayscale buffer is absent or holds
`w * h` samples, leaves width, height and pixels unchanged and a grayscale
buffer of exactly `w * h` samples.  The pixel count is taken to fit in an
`int`. -/
theorem image_length_invariant (u : Uninit) (src : List Nat) (w h : Nat)
    (hsig : src[0]? = some 0x42 ∧ src[1]? = some 0x4D) (h54 : 54 ≤ src.length)
    (hw : toInt32 (rd32 src 18) = w) (hh : toInt32 (rd32 src 22) = h)
    (hfit : w * h < 2147483648)
    (img0 : Image) (px0 : List Pixel) (hpx0 : img0.pixels = some px0)
    (hw0 : img0.width = w) (hh0 : img0.height = h) (hlen0 : px0.length = w * h)
    (hg0 : img0.grayscale = none ∨ ∃ g, img0.grayscale = some g ∧ g.length = w * h) :
    (∃ img px, readBMP u (some src) = some img ∧ img.width = w ∧ img.height = h ∧
      img.pixels = some px ∧ px.length = w * h ∧
      ∃ img1 g1, convertToGrayscale u (some img) = some img1 ∧ img1.width = w ∧
        img1.height = h ∧ img1.pixels = some px ∧ img1.grayscale = some g1 ∧
        g1.length = w * h) ∧
    (∃ img1 g1, convertToGrayscale u (some img0) = some img1 ∧ img1.width = img0.width ∧
      img1.height = img0.height ∧ img1.pixels = img0.pixels ∧ px0.length = w * h ∧
      img1.grayscale = some g1 ∧ g1.length = w * h) := by
  constructor
  · obtain ⟨img, px, h1, h2, h3, h4, h5, h6⟩ := readBMP_shape u src w h hsig h54 hw hh hfit
    refine ⟨img, px, h1, h2, h3, h5, h6, _, _,
      convertToGrayscale_eq u img px w h h5 h2 h3 h6
        (fun g hg => by rw [h4] at hg; cases hg) hfit, h2, h3, h5, rfl, ?_⟩
    rw [List.length_map, h6]
  · refine ⟨_, _, convertToGrayscale_eq u img0 px0 w h hpx0 hw0 hh0 hlen0 ?_ hfit,
      rfl, rfl, rfl, hlen0, rfl, ?_⟩
    · intro g hg
      rcases hg0 with hn | ⟨g', hg', hl⟩
      · rw [hn] at hg; cases hg
      · rw [hg'] at hg; cases hg; exact hl
    · rw [List.length_map, hlen0]

/-- Witness of C17 at the truncated 2x1 file and at the 2x1 Image whose
grayscale buffer is already present. -/
theorem image_length_invariant_witness :
    (truncatedBMP[0]? = some 0x42 ∧ truncatedBMP[1]? = some 0x4D) ∧
    54 ≤ truncatedBMP.length ∧
    toInt32 (rd32 truncatedBMP 18) = ((2 : Nat) : Int) ∧
    toInt32 (rd32 truncatedBMP 22) = ((1 : Nat) : Int) ∧
    (regraded2x1.grayscale = none ∨ ∃ g, regraded2x1.grayscale = some g ∧ g.length = 2 * 1) ∧
    (∃ img px, readBMP staleMemory (some truncatedBMP) = some img ∧
      img.width = ((2 : Nat) : Int) ∧ img.height = ((1 : Nat) : Int) ∧
      img.pixels = some px ∧ px.length = 2 * 1 ∧
      ∃ img1 g1, convertToGrayscale staleMemory (some img) = some img1 ∧
        img1.width = ((2 : Nat) : Int) ∧
        img1.height = ((1 : Nat) : Int) ∧ img1.pixels = some px ∧ img1.grayscale = some g1 ∧
        g1.length = 2 * 1) ∧
    (∃ img1 g1, convertToGrayscale staleMemory (some regraded2x1) = some img1 ∧
      img1.width = regraded2x1.width ∧
      img1.height = regraded2x1.height ∧ img1.pixels = regraded2x1.pixels ∧
      ([{ red := 255, green := 0, blue := 0 }, { red := 0, green := 255, blue := 0 }]
        : List Pixel).length = 2 * 1 ∧
      img1.grayscale = some g1 ∧ g1.length = 2 * 1) :=
  ⟨by decide, by decide, by decide, by decide, Or.inr ⟨[9, 9], rfl, rfl⟩,
    image_length_invariant staleMemory truncatedBMP 2 1 (by decide) (by decide) (by decide)
      (by decide) (by decide) regraded2x1 _ rfl rfl rfl rfl (Or.inr ⟨[9, 9], rfl, rfl⟩)⟩

/-! ## Neutral gray -/

set_option maxRecDepth 100000 in
set_option maxHeartbeats 8000000 in
/-- The grayscale value of every neutral gray `k`: `k` itself, except for 13
levels that come out one lower. -/
theorem luminance_gray (k : Nat) (hk : k < 256) :
    luminance (grayPixel k) = if k ∈ darkenedGrays then k - 1 else k := by
  interval_cases k <;> decide!

set_option maxRecDepth 100000 in
/-- C18, as stated, fails: `convertToGrayscale` maps the neutral gray 37 to 36. -/
theorem convertToGrayscale_gray_37 :
    convertToGrayscale staleMemory (some ⟨1, 1, some [grayPixel 37], none⟩)
      = some ⟨1, 1, some [grayPixel 37], some [36]⟩ := by
  decide

/-- C18, amended: for every `k` in 0..255 `convertToGrayscale` maps a pixel with
red = green = blue = `k` to the grayscale value `k`, except for the 13 levels
37, 61, 74, 93, 111, 122, 148, 186, 215, 222, 233, 244 and 253, which it maps
to `k - 1`: there the binary32 sum falls just below `k` and is truncated. -/
theorem convertToGrayscale_gray (u : Uninit) (k : Nat) (hk : k < 256) :
    convertToGrayscale u (some ⟨1, 1, some [grayPixel k], none⟩)
      = some ⟨1, 1, some [grayPixel k],
          some [if k ∈ darkenedGrays then k - 1 else k]⟩ := by
  rw [convertToGrayscale_eq u ⟨1, 1, some [grayPixel k], none⟩ [grayPixel k] 1 1 rfl rfl rfl
    rfl (by intro g hg; cases hg) (by decide)]
  simp only [List.map_cons, List.map_nil, luminance_gray k hk]

/-- Witness of amended C18 at the gray level 100, which is preserved. -/
theorem convertToGrayscale_gray_witness :
    100 < 256 ∧
    convertToGrayscale staleMemory (some ⟨1, 1, some [grayPixel 100], none⟩)
      = some ⟨1, 1, some [grayPixel 100],
          some [if 100 ∈ darkenedGrays then 100 - 1 else 100]⟩ :=
  ⟨by decide, convertToGrayscale_gray staleMemory 100 (by decide)⟩

/-! ## Binary32: rounding is monotone -/

theorem f32Exp_le_fuel (fuel q : Nat) : f32Exp fuel q ≤ fuel := by
  induction fuel generalizing q with
  | zero => exact Nat.le_refl 0
  | succ fuel ih =>
    unfold f32Exp
    split
    · omega
    · have := ih (q / 2); omega

theorem f32Exp_mono (fuel : Nat) : ∀ q q' : Nat, q ≤ q' → f32Exp fuel q ≤ f32Exp fuel q' := by
  induction fuel with
  | zero => intro q q' _; exact Nat.le_refl 0
  | succ fuel ih =>
    intro q q' h
    unfold f32Exp
    split
    · omega
    · rename_i hq
      rw [if_neg (by omega)]
      have := ih (q / 2) (q' / 2) (Nat.div_le_div_right h)
      omega

/-- When the fuel is not used up, the value lies below the next binade. -/
theorem f32Exp_lt (fuel : Nat) : ∀ q : Nat, f32Exp fuel q < fuel →
    q < 2 ^ (24 + f32Exp fuel q) := by
  induction fuel with
  | zero => intro q h; exact absurd h (Nat.not_lt_zero _)
  | succ fuel ih =>
    intro q h
    unfold f32Exp at h ⊢
    split
    · rename_i hq; simpa using hq
    · rename_i hq
      rw [if_neg hq] at h
      have h1 := ih (q / 2) (by omega)
      have e : 2 ^ (24 + (f32Exp fuel (q / 2) + 1)) = 2 * 2 ^ (24 + f32Exp fuel (q / 2)) := by
        ring
      rw [e]; omega

theorem f32Round_eq_at (num den : Nat) :
    f32Round num den = f32RoundAt (f32Exp 256 (num / den)) num den := rfl

theorem f32RoundAt_lower (s num den : Nat) :
    num / (den * 2 ^ s) * 2 ^ s ≤ f32RoundAt s num den := by
  have h : num / (den * 2 ^ s) * 2 ^ s ≤ (num / (den * 2 ^ s) + 1) * 2 ^ s :=
    Nat.mul_le_mul_right _ (by omega)
  unfold f32RoundAt
  simp only []
  split
  · exact Nat.le_refl _
  · split
    · exact Nat.le_refl _
    · exact h

theorem f32RoundAt_upper (s num den : Nat) :
    f32RoundAt s num den ≤ (num / (den * 2 ^ s) + 1) * 2 ^ s := by
  have h : num / (den * 2 ^ s) * 2 ^ s ≤ (num / (den * 2 ^ s) + 1) * 2 ^ s :=
    Nat.mul_le_mul_right _ (by omega)
  unfold f32RoundAt
  simp only []
  split
  · exact h
  · split
    · exact h
    · exact Nat.le_refl _

/-- Rounding to a fixed grid is monotone. -/
theorem f32RoundAt_mono (s den : Nat) (hden : 0 < den) (a b : Nat) (h : a ≤ b) :
    f32RoundAt s a den ≤ f32RoundAt s b den := by
  have hG : 0 < den * 2 ^ s := Nat.mul_pos hden (Nat.pow_pos (by omega))
  have hm : a / (den * 2 ^ s) ≤ b / (den * 2 ^ s) := Nat.div_le_div_right h
  rcases Nat.lt_or_ge (a / (den * 2 ^ s)) (b / (den * 2 ^ s)) with hlt | hge
  · refine (f32RoundAt_upper s a den).trans (Nat.le_trans ?_ (f32RoundAt_lower s b den))
    exact Nat.mul_le_mul_right _ hlt
  · have hmeq : b / (den * 2 ^ s) = a / (den * 2 ^ s) := Nat.le_antisymm hge hm
    have ha := Nat.div_add_mod a (den * 2 ^ s)
    have hb := Nat.div_add_mod b (den * 2 ^ s)
    rw [hmeq] at hb
    have hr : a % (den * 2 ^ s) ≤ b % (den * 2 ^ s) := by omega
    have hstep : (a / (den * 2 ^ s) + 1) * 2 ^ s
        = a / (den * 2 ^ s) * 2 ^ s + 2 ^ s := by ring
    unfold f32RoundAt
    simp only [hmeq, hstep]
    generalize a / (den * 2 ^ s) * 2 ^ s = X
    generalize a % (den * 2 ^ s) = ra at *
    generalize b % (den * 2 ^ s) = rb at *
    generalize den * 2 ^ s = G at *
    generalize a / G = m at *
    generalize 2 ^ s = P at *
    clear ha hb hm hge hmeq hstep
    split_ifs <;> omega

/-- Binary32 rounding is monotone. -/
theorem f32Round_mono (den : Nat) (hden : 0 < den) (a b : Nat) (h : a ≤ b) :
    f32Round a den ≤ f32Round b den := by
  have hq : a / den ≤ b / den := Nat.div_le_div_right h
  have hs := f32Exp_mono 256 _ _ hq
  rw [f32Round_eq_at, f32Round_eq_at]
  rcases Nat.lt_or_ge (f32Exp 256 (a / den)) (f32Exp 256 (b / den)) with hlt | hge
  · have hfuel : f32Exp 256 (a / den) < 256 :=
      Nat.lt_of_lt_of_le hlt (f32Exp_le_fuel 256 _)
    have hqa := f32Exp_lt 256 (a / den) hfuel
    have hqb : 2 ^ (f32Exp 256 (b / den) + 23) ≤ b / den := by
      rcases f32Exp_spec 256 (b / den) with h0 | h1
      · omega
      · exact h1
    have hma : a / (den * 2 ^ f32Exp 256 (a / den)) + 1 ≤ 2 ^ 24 := by
      rw [← Nat.div_div_eq_div_mul]
      have : a / den / 2 ^ f32Exp 256 (a / den) < 2 ^ 24 := by
        rw [Nat.div_lt_iff_lt_mul (Nat.pow_pos (by omega)), ← Nat.pow_add]
        exact hqa
      omega
    have hmb : 2 ^ 23 ≤ b / (den * 2 ^ f32Exp 256 (b / den)) := by
      rw [← Nat.div_div_eq_div_mul, Nat.le_div_iff_mul_le (Nat.pow_pos (by omega)),
        ← Nat.pow_add, Nat.add_comm]
      exact hqb
    calc f32RoundAt (f32Exp 256 (a / den)) a den
        ≤ (a / (den * 2 ^ f32Exp 256 (a / den)) + 1) * 2 ^ f32Exp 256 (a / den) :=
          f32RoundAt_upper _ _ _
      _ ≤ 2 ^ 24 * 2 ^ f32Exp 256 (a / den) := Nat.mul_le_mul_right _ hma
      _ = 2 ^ (23 + (f32Exp 256 (a / den) + 1)) := by ring
      _ ≤ 2 ^ (23 + f32Exp 256 (b / den)) := Nat.pow_le_pow_right (by omega) (by omega)
      _ = 2 ^ 23 * 2 ^ f32Exp 256 (b / den) := by ring
      _ ≤ b / (den * 2 ^ f32Exp 256 (b / den)) * 2 ^ f32Exp 256 (b / den) :=
          Nat.mul_le_mul_right _ hmb
      _ ≤ f32RoundAt (f32Exp 256 (b / den)) b den := f32RoundAt_lower _ _ _
  · have e : f32Exp 256 (b / den) = f32Exp 256 (a / den) := Nat.le_antisymm hge hs
    rw [e]
    exact f32RoundAt_mono _ den hden a b h

/-! ## Binary32: the weighted sum is monotone -/

theorem f32OfNat_mono {n n' : Nat} (h : n ≤ n') : f32OfNat n ≤ f32OfNat n' :=
  f32Round_mono 1 (by omega) _ _ (Nat.mul_le_mul_right _ h)

theorem f32Mul_mono (c : Nat) {a a' : Nat} (h : a ≤ a') : f32Mul c a ≤ f32Mul c a' :=
  f32Round_mono f32Unit (Nat.pow_pos (by omega)) _ _ (Nat.mul_le_mul_left c h)

theorem f32Add_mono {a a' b b' : Nat} (ha : a ≤ a') (hb : b ≤ b') :
    f32Add a b ≤ f32Add a' b' :=
  f32Round_mono 1 (by omega) _ _ (Nat.add_le_add ha hb)

/-- The weighted sum does not decrease when no channel decreases. -/
theorem weightedSum_mono (p p' : Pixel) (hr : p.red ≤ p'.red) (hg : p.green ≤ p'.green)
    (hb : p.blue ≤ p'.blue) : weightedSum p ≤ weightedSum p' :=
  f32Add_mono (f32Add_mono (f32Mul_mono c0299 (f32OfNat_mono hr))
    (f32Mul_mono c0587 (f32OfNat_mono hg))) (f32Mul_mono c0114 (f32OfNat_mono hb))

/-- C19: for every pixel of bytes the weighted sum computed in
`convertToGrayscale` is below 256 (it is never negative), so its conversion to
`uint8_t` is its integer part and does not wrap; and the grayscale value does
not decrease when no channel decreases, in particular when one channel
increases and the other two are fixed. -/
theorem weightedSum_range_monotone (p p' : Pixel) (hp : IsPixel p) (hp' : IsPixel p')
    (hr : p.red ≤ p'.red) (hg : p.green ≤ p'.green) (hb : p.blue ≤ p'.blue) :
    0 ≤ weightedSum p ∧ weightedSum p < 256 * f32Unit ∧
    luminance p = f32Trunc (weightedSum p) ∧ luminance p < 256 ∧
    luminance p ≤ luminance p' := by
  obtain ⟨e1, h1⟩ := luminance_eq_trunc p hp
  obtain ⟨e2, _⟩ := luminance_eq_trunc p' hp'
  refine ⟨Nat.zero_le _, weightedSum_lt p hp, e1, by rw [e1]; exact h1, ?_⟩
  rw [e1, e2]
  exact Nat.div_le_div_right (weightedSum_mono p p' hr hg hb)

/-- Witness of C19 at two pixels that differ in the red channel. -/
theorem weightedSum_range_monotone_witness :
    IsPixel ⟨10, 20, 30⟩ ∧ IsPixel ⟨10, 20, 200⟩ ∧
    0 ≤ weightedSum ⟨10, 20, 30⟩ ∧ weightedSum ⟨10, 20, 30⟩ < 256 * f32Unit ∧
    luminance ⟨10, 20, 30⟩ = f32Trunc (weightedSum ⟨10, 20, 30⟩) ∧
    luminance ⟨10, 20, 30⟩ < 256 ∧
    luminance ⟨10, 20, 30⟩ ≤ luminance ⟨10, 20, 200⟩ :=
  ⟨by decide, by decide,
    weightedSum_range_monotone ⟨10, 20, 30⟩ ⟨10, 20, 200⟩ (by decide) (by decide)
      (by decide) (by decide) (by decide)⟩

/-! ## Padding of negative widths -/

/-- C20: for every width, negative values included, the padding size that
`saveGrayscaleBMP` computes as `(4 - (width % 4)) % 4` with the truncating `%`
of C lies in 0..3, so the padding write asks for no more bytes than the 3-byte
zero buffer holds and writes exactly that many zero bytes. -/
theorem savePaddingSize_within_buffer (width : Int) :
    0 ≤ savePaddingSize width ∧ savePaddingSize width ≤ 3 ∧
    toSizeT (savePaddingSize width) ≤ padding.length ∧
    fwrite padding 0 (savePaddingSize width)
      = List.replicate (savePaddingSize width).toNat 0 := by
  obtain ⟨h0, h3⟩ := savePaddingSize_range width
  obtain ⟨p, hp⟩ := Int.eq_ofNat_of_zero_le h0
  have hp3 : p ≤ 3 := by omega
  refine ⟨h0, h3, ?_, ?_⟩
  · rw [hp, toSizeT_natCast (by omega)]
    exact hp3
  · rw [hp, fwrite_padding p hp3, Int.toNat_natCast]

end Grayscale
